import Mathlib

/-!
Shallow embedding of the BTCMMakerAI trading core (TypeScript) in Lean 4.

Components embedded from the repository source:
* `RiskManager`  — src/unnamed/part_014 (fee-aware minimum price move, time window gate)
* `BackendFeed`  — src/src/backend/live-price-feed.ts (price freshness tracker)
* `Part005Feed`  — src/unnamed/part_005 (alternative LivePriceFeed variant)
* `Trader`       — src/unnamed/part_002 (position/order ledger: updatePosition, buy,
                   forceLiquidate, syncPositionsFromApi, placeLimitSellForPosition,
                   marketSellRemainder)
* `Strategy`     — src/src/test-strategy.ts (signal state machine: generateSignals,
                   tryBuyWithAI)

JavaScript numbers are embedded as rationals (`ℚ`); venue I/O is embedded as
explicit oracle inputs where `none` stands for a thrown exception; JS `Map`s are
embedded as association lists with JS-Map semantics (set replaces in place,
iteration in insertion order).  Console logging, sleeps and file persistence have
no effect on the modelled state and are omitted.
-/

/-- JS `Math.round`: round half toward positive infinity. -/
def jsRound (q : ℚ) : ℤ := ⌊q + 1/2⌋

/-- JS `parseFloat(x.toFixed(1))`: round to one decimal place. -/
def round1 (q : ℚ) : ℚ := (jsRound (q * 10) : ℚ) / 10

/-- JS `parseFloat(x.toFixed(2))`: round to two decimal places. -/
def round2 (q : ℚ) : ℚ := (jsRound (q * 100) : ℚ) / 100

/-- JS `s.toLowerCase()` for ASCII strings (`String.map Char.toLower`,
written on the character list so that it evaluates definitionally). -/
def jsToLower (s : String) : String := ⟨s.data.map Char.toLower⟩

namespace AList

variable {α : Type}

/-- Lookup in a JS `Map` modelled as an association list (first binding wins). -/
def lookupk : List (String × α) → String → Option α
  | [], _ => none
  | (k, v) :: rest, key => if k = key then some v else lookupk rest key

/-- JS `Map.prototype.set`: replace the binding in place if the key is present,
otherwise append it.  (A JS `Map` never holds duplicate keys, so replacing the
first occurrence is the exact `Map.prototype.set` behaviour.) -/
def setk : List (String × α) → String → α → List (String × α)
  | [], key, v => [(key, v)]
  | (k, w) :: rest, key, v =>
    if k = key then (key, v) :: rest else (k, w) :: setk rest key v

/-- JS `Map.prototype.delete`. -/
def erasek : List (String × α) → String → List (String × α)
  | [], _ => []
  | (k, w) :: rest, key =>
    if k = key then erasek rest key else (k, w) :: erasek rest key

theorem lookupk_erasek (l : List (String × α)) (key k : String) :
    lookupk (erasek l key) k = if k = key then none else lookupk l k := by
  induction l with
  | nil => simp [erasek, lookupk]
  | cons hd tl ih =>
    rcases hd with ⟨k0, v0⟩
    simp only [erasek]
    by_cases hk0 : k0 = key
    · rw [if_pos hk0, ih]
      by_cases hkk : k = key
      · rw [if_pos hkk, if_pos hkk]
      · have hk0k : ¬k0 = k := fun h => hkk ((h.symm).trans hk0)
        rw [if_neg hkk, if_neg hkk]
        simp [lookupk, hk0k]
    · rw [if_neg hk0]
      by_cases hk0k : k0 = k
      · have hkk : ¬k = key := fun h => hk0 (hk0k.trans h)
        simp [lookupk, hk0k, hkk]
      · simp [lookupk, hk0k, ih]

theorem lookupk_filter (l : List (String × α)) (p : String → Bool) (k : String) :
    lookupk (l.filter fun kv => p kv.1) k =
      if p k then lookupk l k else none := by
  induction l with
  | nil => simp [lookupk]
  | cons hd tl ih =>
    rcases hd with ⟨k0, v0⟩
    by_cases hp : p k0
    · simp only [List.filter_cons, hp, if_true]
      by_cases hk0 : k0 = k
      · subst hk0; simp [lookupk, hp]
      · simp [lookupk, hk0, ih]
    · simp only [List.filter_cons, hp, Bool.false_eq_true, if_false]
      by_cases hk0 : k0 = k
      · subst hk0; simp [lookupk, hp, ih]
      · simp [lookupk, hk0, ih]

theorem lookupk_setk (l : List (String × α)) (key k : String) (v : α) :
    lookupk (setk l key v) k = if k = key then some v else lookupk l k := by
  induction l with
  | nil =>
    by_cases hkk : k = key
    · simp [setk, lookupk, hkk]
    · have : ¬key = k := fun h => hkk h.symm
      simp [setk, lookupk, hkk, this]
  | cons hd tl ih =>
    rcases hd with ⟨k0, v0⟩
    simp only [setk]
    by_cases hk0 : k0 = key
    · rw [if_pos hk0]
      by_cases hkk : k = key
      · simp [lookupk, hkk]
      · have hkeyk : ¬key = k := fun h => hkk h.symm
        have hk0k : ¬k0 = k := fun h => hkk ((h.symm).trans hk0)
        simp [lookupk, hkk, hkeyk, hk0k]
    · rw [if_neg hk0]
      by_cases hk0k : k0 = k
      · have hkk : ¬k = key := fun h => hk0 (hk0k.trans h)
        simp [lookupk, hk0k, hkk]
      · simp [lookupk, hk0k, ih]

end AList

open AList

/-! ## RiskManager — src/unnamed/part_014 -/

namespace RiskManager

/-- Configuration field `config.TAKER_FEE_PERCENT` from src/src/config.ts. -/
def TAKER_FEE_PERCENT : ℚ := 1

/-- Embedding of `RiskManager.calculateMinPriceMove` (part_014 lines 184–200):
solves for the minimum sell-price delta delivering `targetNetProfit` net of
taker fees on both legs, rounded up to the 0.1 cent tick. -/
def calculateMinPriceMove (buyPrice targetNetProfit size : ℚ) : ℚ :=
  let feeRate := TAKER_FEE_PERCENT / 100
  let minMove := (targetNetProfit / size + 2 * buyPrice * feeRate) / (1 - feeRate)
  (⌈minMove * 10⌉ : ℚ) / 10

/-- Embedding of `RiskManager.checkTimeWindow` (part_014 lines 205–221),
returning the `canTrade` flag. -/
def checkTimeWindow (SELL_BEFORE_START_MS MIN_TIME_TO_TRADE_MS timeToStart : ℚ) : Bool :=
  if timeToStart ≤ SELL_BEFORE_START_MS then false
  else if timeToStart ≤ MIN_TIME_TO_TRADE_MS then false
  else true

end RiskManager

/-! ## Price freshness tracker — the two LivePriceFeed variants -/

/-- Shared shape of the LivePriceFeed state relevant to price samples:
`prices` maps tokenId to the latest accepted price in cents and
`priceTimestamps` maps tokenId to the acceptance time in ms. -/
structure FeedState where
  prices : List (String × ℚ)
  priceTimestamps : List (String × ℚ)
deriving Repr, DecidableEq

namespace BackendFeed

/-- Embedding of `clampPrice` from src/src/backend/live-price-feed.ts:
clamp into the [0.5, 99.5] safety band. -/
def clampPrice (priceCents : ℚ) : ℚ :=
  if priceCents < 1/2 then 1/2
  else if priceCents > 199/2 then 199/2
  else priceCents

/-- Embedding of `LivePriceFeed.setPrice` from src/src/backend/live-price-feed.ts
(lines 239–249).  When `force` is false and the clamped value is within 0.01
cents of the stored one, the method returns early: neither the price nor the
timestamp is touched. -/
def setPrice (s : FeedState) (tokenId : String) (priceCents : ℚ) (force : Bool)
    (now : ℚ) : FeedState :=
  let clamped := clampPrice priceCents
  let skip :=
    if force then false
    else
      match lookupk s.prices tokenId with
      | some current => |current - clamped| < 1/100
      | none => false
  if skip then s
  else
    { prices := setk s.prices tokenId clamped,
      priceTimestamps := setk s.priceTimestamps tokenId now }

/-- Embedding of the pure filtering part of `LivePriceFeed.getPricesFresh`
(src/src/backend/live-price-feed.ts lines 203–237): keep exactly the pairs whose
sample age `now - ts` is at most `maxAgeMs`.  The staleness watchdog in the same
method only touches the websocket connection, not the returned snapshot. -/
def getPricesFresh (s : FeedState) (maxAgeMs now : ℚ) : List (String × ℚ) :=
  s.prices.filter (fun kv =>
    now - ((lookupk s.priceTimestamps kv.1).getD 0) ≤ maxAgeMs)

end BackendFeed

namespace Part005Feed

/-- Embedding of `clampPrice` from src/unnamed/part_005: clamp into [8, 85]. -/
def clampPrice (priceCents : ℚ) : ℚ :=
  if priceCents < 8 then 8
  else if priceCents > 85 then 85
  else priceCents

/-- Embedding of `LivePriceFeed.setPrice` from src/unnamed/part_005 (lines
203–216).  When `force` is false and the clamped value is within 0.01 cents of
the stored one, the stored price is kept but the timestamp is refreshed to
`now` before returning. -/
def setPrice (s : FeedState) (tokenId : String) (priceCents : ℚ) (force : Bool)
    (now : ℚ) : FeedState :=
  let clamped := clampPrice priceCents
  let skip :=
    if force then false
    else
      match lookupk s.prices tokenId with
      | some current => |current - clamped| < 1/100
      | none => false
  if skip then
    { s with priceTimestamps := setk s.priceTimestamps tokenId now }
  else
    { prices := setk s.prices tokenId clamped,
      priceTimestamps := setk s.priceTimestamps tokenId now }

end Part005Feed

/-! ## Theorems for claims C5, C8, C9 -/

/-- C5: `calculateMinPriceMove(buyPrice, targetNetProfit, size)` returns the
algebraic solution `(targetNetProfit/size + 2·buyPrice·feeRate/100) /
(1 − feeRate/100)` (feeRate = 1%) rounded up to the 0.1-cent tick, and the
returned move `x` never under-shoots the requested net profit once taker fees
on both legs are deducted: `x·size − 0.01·(2·buyPrice + x)·size ≥
targetNetProfit`. -/
theorem calculateMinPriceMove_meets_target (buyPrice targetNetProfit size : ℚ)
    (hsize : 0 < size) :
    RiskManager.calculateMinPriceMove buyPrice targetNetProfit size =
      (⌈((targetNetProfit / size + 2 * buyPrice * (1 / 100)) / (1 - 1 / 100)) * 10⌉ : ℚ)
        / 10 ∧
    RiskManager.calculateMinPriceMove buyPrice targetNetProfit size * size -
        (1 / 100) *
          (2 * buyPrice + RiskManager.calculateMinPriceMove buyPrice targetNetProfit size) *
          size
      ≥ targetNetProfit := by
  have hform :
      RiskManager.calculateMinPriceMove buyPrice targetNetProfit size =
        (⌈((targetNetProfit / size + 2 * buyPrice * (1 / 100)) / (1 - 1 / 100)) * 10⌉ : ℚ)
          / 10 := by
    unfold RiskManager.calculateMinPriceMove RiskManager.TAKER_FEE_PERCENT
    norm_num
  refine ⟨hform, ?_⟩
  set m : ℚ := (targetNetProfit / size + 2 * buyPrice * (1 / 100)) / (1 - 1 / 100) with hm
  set x : ℚ := RiskManager.calculateMinPriceMove buyPrice targetNetProfit size with hxdef
  have hxm : m ≤ x := by
    rw [hform]
    have hceil : m * 10 ≤ (⌈m * 10⌉ : ℚ) := Int.le_ceil (m * 10)
    linarith
  have hmval : m * (99 / 100) = targetNetProfit / size + 2 * buyPrice * (1 / 100) := by
    rw [hm, show (1 - 1 / 100 : ℚ) = 99 / 100 by norm_num]
    exact div_mul_cancel₀ _ (by norm_num)
  have hstep : targetNetProfit / size ≤ x * (99 / 100) - 2 * buyPrice * (1 / 100) := by
    nlinarith
  have hts : (targetNetProfit / size) * size = targetNetProfit := by
    field_simp
  nlinarith [mul_le_mul_of_nonneg_right hstep (le_of_lt hsize)]

/-- C5 witness: the documented instance entry = 40¢, target = 2¢, size = 50,
fee rate = 1%. -/
theorem calculateMinPriceMove_meets_target_witness :
    (0 : ℚ) < 50 ∧
    (RiskManager.calculateMinPriceMove 40 2 50 =
        (⌈(((2 : ℚ) / 50 + 2 * 40 * (1 / 100)) / (1 - 1 / 100)) * 10⌉ : ℚ) / 10 ∧
      RiskManager.calculateMinPriceMove 40 2 50 * 50 -
          (1 / 100) * (2 * 40 + RiskManager.calculateMinPriceMove 40 2 50) * 50
        ≥ 2) :=
  ⟨by norm_num, calculateMinPriceMove_meets_target 40 2 50 (by norm_num)⟩

/-- C8 counterexample: in `LivePriceFeed.setPrice` of
src/src/backend/live-price-feed.ts, a no-op update (`force = false`, new value
within 0.01¢ of the stored one) returns early WITHOUT refreshing the stored
timestamp: with price 50¢ stored at time 100, re-submitting 50¢ at time 200
leaves the timestamp at 100, contradicting the claim that a no-op update still
refreshes the timestamp. -/
theorem backend_setPrice_noop_keeps_stale_timestamp :
    BackendFeed.setPrice ⟨[("T", 50)], [("T", 100)]⟩ "T" 50 false 200 =
        ⟨[("T", 50)], [("T", 100)]⟩ ∧
      lookupk (BackendFeed.setPrice ⟨[("T", 50)], [("T", 100)]⟩ "T" 50 false 200).priceTimestamps
          "T" = some 100 ∧
      (100 : ℚ) ≠ 200 := by
  have hset :
      BackendFeed.setPrice ⟨[("T", 50)], [("T", 100)]⟩ "T" 50 false 200 =
        ⟨[("T", 50)], [("T", 100)]⟩ := by
    unfold BackendFeed.setPrice BackendFeed.clampPrice
    norm_num [lookupk]
  refine ⟨hset, ?_, by norm_num⟩
  rw [hset]
  simp [lookupk]

/-- C8 (amended): in the `LivePriceFeed.setPrice` variant of
src/unnamed/part_005, a no-op update (`force = false`, new value within 0.01¢
of the stored one) keeps the stored price but refreshes the instrument's
timestamp to the current time, leaving other instruments' timestamps
untouched; the backend variant instead returns without touching the
timestamp (see the counterexample). -/
theorem part005_setPrice_noop_refreshes_timestamp (s : FeedState) (tokenId : String)
    (v now current : ℚ) (hcur : lookupk s.prices tokenId = some current)
    (hnear : |current - Part005Feed.clampPrice v| < 1 / 100) :
    (Part005Feed.setPrice s tokenId v false now).prices = s.prices ∧
    lookupk (Part005Feed.setPrice s tokenId v false now).priceTimestamps tokenId
        = some now ∧
    ∀ t, t ≠ tokenId →
      lookupk (Part005Feed.setPrice s tokenId v false now).priceTimestamps t
        = lookupk s.priceTimestamps t := by
  unfold Part005Feed.setPrice
  simp only [hcur, hnear, if_true, Bool.false_eq_true, if_false]
  refine ⟨rfl, ?_, ?_⟩
  · simp [lookupk_setk]
  · intro t ht
    simp [lookupk_setk, ht]

/-- C8 witness for the amended claim: a stored price of 50¢ at time 100,
re-submitted as 50¢ at time 200, keeps value 50 and moves the timestamp to
200. -/
theorem part005_setPrice_noop_refreshes_timestamp_witness :
    lookupk (FeedState.mk [("T", 50)] [("T", 100)]).prices "T" = some 50 ∧
    |(50 : ℚ) - Part005Feed.clampPrice 50| < 1 / 100 ∧
    ((Part005Feed.setPrice ⟨[("T", 50)], [("T", 100)]⟩ "T" 50 false 200).prices
        = [("T", 50)] ∧
      lookupk (Part005Feed.setPrice ⟨[("T", 50)], [("T", 100)]⟩ "T" 50 false
          200).priceTimestamps "T" = some 200 ∧
      ∀ t, t ≠ "T" →
        lookupk (Part005Feed.setPrice ⟨[("T", 50)], [("T", 100)]⟩ "T" 50 false
            200).priceTimestamps t = lookupk [("T", (100 : ℚ))] t) :=
  ⟨by simp [lookupk], by norm_num [Part005Feed.clampPrice],
    part005_setPrice_noop_refreshes_timestamp ⟨[("T", 50)], [("T", 100)]⟩ "T" 50 200 50
      (by simp [lookupk]) (by norm_num [Part005Feed.clampPrice])⟩

/-- C9: `getPricesFresh` returns exactly the instrument-to-price pairs observed
within the given maximum age (first conjunct characterises the snapshot for
every state), and for samples accepted at times `t1` then `t2`, querying at
`t2 + maxAge + 1` excludes the instrument while querying at `t2 + maxAge − 1`
includes it with the value stored at `t2`. -/
theorem getPricesFresh_roundtrip (s : FeedState) (tokenId : String)
    (v1 v2 t1 t2 maxAgeMs : ℚ) :
    (∀ (st : FeedState) (now : ℚ) (tok : String),
        lookupk (BackendFeed.getPricesFresh st maxAgeMs now) tok =
          if now - (lookupk st.priceTimestamps tok).getD 0 ≤ maxAgeMs then
            lookupk st.prices tok
          else none) ∧
    lookupk
        (BackendFeed.getPricesFresh
          (BackendFeed.setPrice (BackendFeed.setPrice s tokenId v1 true t1) tokenId v2 true t2)
          maxAgeMs (t2 + maxAgeMs + 1)) tokenId = none ∧
    lookupk
        (BackendFeed.getPricesFresh
          (BackendFeed.setPrice (BackendFeed.setPrice s tokenId v1 true t1) tokenId v2 true t2)
          maxAgeMs (t2 + maxAgeMs - 1)) tokenId
      = some (BackendFeed.clampPrice v2) ∧
    lookupk
        (BackendFeed.setPrice (BackendFeed.setPrice s tokenId v1 true t1) tokenId v2 true
          t2).prices tokenId = some (BackendFeed.clampPrice v2) := by
  have hchar :
      ∀ (st : FeedState) (now : ℚ) (tok : String),
        lookupk (BackendFeed.getPricesFresh st maxAgeMs now) tok =
          if now - (lookupk st.priceTimestamps tok).getD 0 ≤ maxAgeMs then
            lookupk st.prices tok
          else none := by
    intro st now tok
    unfold BackendFeed.getPricesFresh
    rw [lookupk_filter st.prices
      (fun k => decide (now - ((lookupk st.priceTimestamps k).getD 0) ≤ maxAgeMs)) tok]
    by_cases h : now - (lookupk st.priceTimestamps tok).getD 0 ≤ maxAgeMs
    · simp [h]
    · simp [h]
  have hts :
      lookupk
        (BackendFeed.setPrice (BackendFeed.setPrice s tokenId v1 true t1) tokenId v2 true
          t2).priceTimestamps tokenId = some t2 := by
    unfold BackendFeed.setPrice
    simp [lookupk_setk]
  have hpr :
      lookupk
        (BackendFeed.setPrice (BackendFeed.setPrice s tokenId v1 true t1) tokenId v2 true
          t2).prices tokenId = some (BackendFeed.clampPrice v2) := by
    unfold BackendFeed.setPrice
    simp [lookupk_setk]
  refine ⟨hchar, ?_, ?_, hpr⟩
  · rw [hchar, hts]
    have : ¬(t2 + maxAgeMs + 1 - t2 ≤ maxAgeMs) := by intro h; linarith
    simp [this]
  · rw [hchar, hts, hpr]
    have : t2 + maxAgeMs - 1 - t2 ≤ maxAgeMs := by linarith
    simp [this]

/-! ## Position & order ledger (Trader) — src/unnamed/part_002 -/

/-- One side of a settlement interval. -/
inductive Outcome
  | Up
  | Down
deriving DecidableEq, Repr

/-- Embedding of the `Position` interface from src/src/types.ts. -/
structure Position where
  tokenId : String
  outcome : Outcome
  size : ℚ
  avgBuyPrice : ℚ
  currentPrice : ℚ
deriving DecidableEq, Repr

/-- Trade direction of a ledger record. -/
inductive TradeSide
  | BUY
  | SELL
deriving DecidableEq, Repr

/-- Embedding of the `TradeRecord` shape appended by `Trader.recordTrade`
(src/unnamed/part_002 lines 1471–1492). -/
structure TradeRecord where
  timestamp : ℚ
  tokenId : String
  market : String
  outcome : Outcome
  side : TradeSide
  price : ℚ
  size : ℚ
  pnl : Option ℚ
  costCents : Option ℚ
deriving DecidableEq, Repr

/-- Value stored in `Trader.pendingBuyOrders`. -/
structure PendingBuy where
  orderId : String
  outcome : Outcome
deriving DecidableEq, Repr

/-- Value stored in `Trader.stopLossWatch`. -/
structure StopWatch where
  outcome : Outcome
  price : ℚ
deriving DecidableEq, Repr

/-- The mutable fields of the `Trader` class (src/unnamed/part_002 lines
634–646) that the embedded methods read or write. -/
structure TraderState where
  positions : List (String × Position)
  tradeHistory : List TradeRecord
  pendingSellOrders : List (String × String)
  pendingBuyOrders : List (String × PendingBuy)
  bracketOrdersPlaced : List String
  stopLossWatch : List (String × StopWatch)
  cachedAvgPrices : List (String × ℚ)
deriving DecidableEq, Repr

namespace Trader

open AList

/-- Embedding of `Trader.recordTrade` (part_002 lines 1471–1492): append an
immutable trade record. -/
def recordTrade (s : TraderState) (now : ℚ) (market : String) (outcome : Outcome)
    (side : TradeSide) (price size : ℚ) (pnl costCents : Option ℚ)
    (tokenId : Option String) : TraderState :=
  { s with tradeHistory := s.tradeHistory ++
      [{ timestamp := now, tokenId := tokenId.getD market, market := market,
         outcome := outcome, side := side, price := price, size := size,
         pnl := pnl, costCents := costCents }] }

/-- Embedding of `Trader.updatePosition` (part_002 lines 1362–1397).  A
positive `sizeDelta` (a BUY fill) recomputes the weighted-average cost and
refreshes the persisted average-price cache; a non-positive delta (a SELL
fill) leaves `avgBuyPrice` untouched.  If the resulting size is ≤ 0 the
position and its bracket/stop/cache bookkeeping are deleted, otherwise size
and current price are stored back. -/
def updatePosition (s : TraderState) (tokenId : String) (outcome : Outcome)
    (sizeDelta price : ℚ) : TraderState :=
  let existing := (lookupk s.positions tokenId).getD
    { tokenId := tokenId, outcome := outcome, size := 0, avgBuyPrice := 0,
      currentPrice := 0 }
  let existing :=
    if 0 < sizeDelta then
      { existing with avgBuyPrice :=
          (existing.avgBuyPrice * existing.size + price * sizeDelta) /
            (existing.size + sizeDelta) }
    else existing
  let s1 :=
    if 0 < sizeDelta then
      { s with cachedAvgPrices := setk s.cachedAvgPrices tokenId existing.avgBuyPrice }
    else s
  let newSize := existing.size + sizeDelta
  if newSize ≤ 0 then
    { s1 with positions := erasek s1.positions tokenId,
              bracketOrdersPlaced := s1.bracketOrdersPlaced.filter (· ≠ tokenId),
              stopLossWatch := erasek s1.stopLossWatch tokenId,
              cachedAvgPrices := erasek s1.cachedAvgPrices tokenId }
  else
    let updated := { existing with size := newSize, currentPrice := price }
    { s1 with positions := setk s1.positions tokenId updated }

/-- A sequence of confirmed BUY fills `(price, size)` applied through
`updatePosition`, as done by `Trader.buy` on each confirmed fill. -/
def applyBuys (s : TraderState) (tokenId : String) (outcome : Outcome)
    (fills : List (ℚ × ℚ)) : TraderState :=
  fills.foldl (fun st f => updatePosition st tokenId outcome f.2 f.1) s

end Trader

namespace Trader

/-- Total size of a list of fills `(price, size)`. -/
def sumSizes (fills : List (ℚ × ℚ)) : ℚ := (fills.map Prod.snd).sum

/-- Total cost `Σ priceᵢ·sizeᵢ` of a list of fills. -/
def sumCost (fills : List (ℚ × ℚ)) : ℚ := (fills.map (fun f => f.1 * f.2)).sum

theorem lookupk_updatePosition_buy (s : TraderState) (t : String) (o : Outcome)
    (δ p : ℚ) (pos : Position) (hlk : lookupk s.positions t = some pos)
    (hδ : 0 < δ) (hS : 0 ≤ pos.size) :
    lookupk (updatePosition s t o δ p).positions t =
      some { pos with
        avgBuyPrice := (pos.avgBuyPrice * pos.size + p * δ) / (pos.size + δ),
        size := pos.size + δ, currentPrice := p } := by
  unfold updatePosition
  have hns : ¬(pos.size + δ ≤ 0) := by linarith
  simp [hlk, hδ, hns, lookupk_setk]

theorem lookupk_updatePosition_sell (s : TraderState) (t : String) (o : Outcome)
    (sellSize p : ℚ) (pos : Position) (hlk : lookupk s.positions t = some pos)
    (hsell : 0 < sellSize) :
    lookupk (updatePosition s t o (-sellSize) p).positions t =
      if pos.size - sellSize ≤ 0 then none
      else some { pos with size := pos.size - sellSize, currentPrice := p } := by
  unfold updatePosition
  have hneg : ¬(0 < -sellSize) := by linarith
  by_cases hz : pos.size + -sellSize ≤ 0
  · have hz2 : pos.size - sellSize ≤ 0 := by linarith
    simp [hlk, hneg, hz, hz2, lookupk_erasek]
  · have hz2 : ¬(pos.size - sellSize ≤ 0) := by
      intro h; exact hz (by linarith)
    simp [hlk, hneg, hz, hz2, lookupk_setk, sub_eq_add_neg]

theorem applyBuys_tracked (t : String) (o : Outcome) (fills : List (ℚ × ℚ)) :
    ∀ (s : TraderState) (pos : Position),
      lookupk s.positions t = some pos → 0 < pos.size →
      (∀ f ∈ fills, 0 < f.2) →
      ∃ pos2, lookupk (applyBuys s t o fills).positions t = some pos2 ∧
        pos2.size = pos.size + sumSizes fills ∧
        pos2.avgBuyPrice * pos2.size = pos.avgBuyPrice * pos.size + sumCost fills ∧
        pos2.outcome = pos.outcome ∧ pos2.tokenId = pos.tokenId := by
  induction fills with
  | nil =>
    intro s pos hlk hS _
    exact ⟨pos, by simpa [applyBuys] using hlk, by simp [sumSizes],
      by simp [sumCost], rfl, rfl⟩
  | cons f rest ih =>
    intro s pos hlk hS hf
    have hfδ : 0 < f.2 := hf f (by simp)
    have hstep := lookupk_updatePosition_buy s t o f.2 f.1 pos hlk hfδ (le_of_lt hS)
    have hrest : ∀ g ∈ rest, 0 < g.2 := fun g hg => hf g (List.mem_cons_of_mem _ hg)
    have hS1 : (0 : ℚ) < pos.size + f.2 := by linarith
    obtain ⟨pos2, h1, h2, h3, h4, h5⟩ :=
      ih (updatePosition s t o f.2 f.1)
        { pos with
          avgBuyPrice := (pos.avgBuyPrice * pos.size + f.1 * f.2) / (pos.size + f.2),
          size := pos.size + f.2, currentPrice := f.1 }
        hstep hS1 hrest
    have happ : applyBuys s t o (f :: rest) =
        applyBuys (updatePosition s t o f.2 f.1) t o rest := rfl
    have hw : ((pos.avgBuyPrice * pos.size + f.1 * f.2) / (pos.size + f.2)) *
        (pos.size + f.2) = pos.avgBuyPrice * pos.size + f.1 * f.2 :=
      div_mul_cancel₀ _ (ne_of_gt hS1)
    refine ⟨pos2, happ ▸ h1, ?_, ?_, h4, h5⟩
    · rw [h2]
      simp [sumSizes]
      ring
    · have hcost : sumCost (f :: rest) = f.1 * f.2 + sumCost rest := by
        simp [sumCost]
      rw [h3, hcost]
      show ((pos.avgBuyPrice * pos.size + f.1 * f.2) / (pos.size + f.2)) *
            (pos.size + f.2) + sumCost rest
          = pos.avgBuyPrice * pos.size + (f.1 * f.2 + sumCost rest)
      rw [hw]
      ring

theorem lookupk_updatePosition_fresh (s : TraderState) (t : String) (o : Outcome)
    (δ p : ℚ) (hnone : lookupk s.positions t = none) (hδ : 0 < δ) :
    lookupk (updatePosition s t o δ p).positions t =
      some { tokenId := t, outcome := o, size := δ, avgBuyPrice := p,
             currentPrice := p } := by
  unfold updatePosition
  have hns : ¬((0 : ℚ) + δ ≤ 0) := by linarith
  have hδle : ¬(δ ≤ 0) := by linarith
  have havg : p * δ / δ = p := mul_div_cancel_right₀ p (ne_of_gt hδ)
  simp [hnone, hδ, hns, hδle, lookupk_setk, havg]

end Trader

/-- C3: starting with no position, applying N confirmed BUY fills at prices
`p₁..p_N` and sizes `s₁..s_N` through `Trader.updatePosition` (with no
intervening sells) yields a Position whose `avgBuyPrice` equals
`Σ pᵢ·sᵢ / Σ sᵢ` and whose size is `Σ sᵢ`; and any subsequent SELL of size
not exceeding the held size leaves `avgBuyPrice` untouched — only `size` and
`currentPrice` change (a SELL of exactly the held size deletes the position,
so the statement about the surviving position holds vacuously there). -/
theorem updatePosition_cost_basis (s : TraderState) (t : String) (o : Outcome)
    (f1 : ℚ × ℚ) (rest : List (ℚ × ℚ)) (sellSize sellPrice : ℚ)
    (hnone : lookupk s.positions t = none)
    (hf : ∀ f ∈ f1 :: rest, 0 < f.2) :
    ∃ pos, lookupk (Trader.applyBuys s t o (f1 :: rest)).positions t = some pos ∧
      pos.size = Trader.sumSizes (f1 :: rest) ∧
      pos.avgBuyPrice = Trader.sumCost (f1 :: rest) / Trader.sumSizes (f1 :: rest) ∧
      (0 < sellSize → sellSize ≤ pos.size →
        ∀ q, lookupk (Trader.updatePosition (Trader.applyBuys s t o (f1 :: rest)) t o
            (-sellSize) sellPrice).positions t = some q →
          q.avgBuyPrice = pos.avgBuyPrice ∧ q.size = pos.size - sellSize ∧
          q.currentPrice = sellPrice ∧ q.outcome = pos.outcome ∧
          q.tokenId = pos.tokenId) := by
  have hδ1 : 0 < f1.2 := hf f1 (by simp)
  have hfresh := Trader.lookupk_updatePosition_fresh s t o f1.2 f1.1 hnone hδ1
  have hrest : ∀ g ∈ rest, 0 < g.2 := fun g hg => hf g (List.mem_cons_of_mem _ hg)
  obtain ⟨pos2, h1, h2, h3, _, _⟩ :=
    Trader.applyBuys_tracked t o rest (Trader.updatePosition s t o f1.2 f1.1)
      { tokenId := t, outcome := o, size := f1.2, avgBuyPrice := f1.1,
        currentPrice := f1.1 } hfresh hδ1 hrest
  have happ : Trader.applyBuys s t o (f1 :: rest) =
      Trader.applyBuys (Trader.updatePosition s t o f1.2 f1.1) t o rest := rfl
  have hsizes : Trader.sumSizes (f1 :: rest) = f1.2 + Trader.sumSizes rest := by
    simp [Trader.sumSizes]
  have hcost : Trader.sumCost (f1 :: rest) = f1.1 * f1.2 + Trader.sumCost rest := by
    simp [Trader.sumCost]
  have hsize2 : pos2.size = Trader.sumSizes (f1 :: rest) := by
    rw [h2, hsizes]
  have hsizespos : 0 < Trader.sumSizes (f1 :: rest) := by
    have : 0 ≤ Trader.sumSizes rest := by
      unfold Trader.sumSizes
      apply List.sum_nonneg
      intro x hx
      obtain ⟨g, hg, hgx⟩ := List.mem_map.mp hx
      exact hgx ▸ le_of_lt (hrest g hg)
    rw [hsizes]; linarith
  have hpos2pos : 0 < pos2.size := hsize2 ▸ hsizespos
  have havg2 : pos2.avgBuyPrice =
      Trader.sumCost (f1 :: rest) / Trader.sumSizes (f1 :: rest) := by
    rw [eq_div_iff (ne_of_gt hsizespos), ← hsize2, h3, hcost]
  refine ⟨pos2, happ ▸ h1, hsize2, havg2, ?_⟩
  intro hsell hle q hq
  rw [Trader.lookupk_updatePosition_sell _ t o sellSize sellPrice pos2 (happ ▸ h1) hsell]
    at hq
  by_cases hz : pos2.size - sellSize ≤ 0
  · rw [if_pos hz] at hq
    cases hq
  · rw [if_neg hz] at hq
    cases hq
    exact ⟨rfl, rfl, rfl, rfl, rfl⟩

/-- C3 witness: two buys (2 shares at 20¢, 2 shares at 10¢) give average cost
15¢ and size 4; a sell of 1 share at 12¢ leaves the average at 15¢. -/
theorem updatePosition_cost_basis_witness :
    lookupk (TraderState.mk [] [] [] [] [] [] []).positions "A" = none ∧
    (∀ f ∈ [((20 : ℚ), (2 : ℚ)), (10, 2)], 0 < f.2) ∧
    (∃ pos, lookupk (Trader.applyBuys ⟨[], [], [], [], [], [], []⟩ "A" Outcome.Up
          [(20, 2), (10, 2)]).positions "A" = some pos ∧
      pos.size = Trader.sumSizes [(20, 2), (10, 2)] ∧
      pos.avgBuyPrice = Trader.sumCost [(20, 2), (10, 2)] /
        Trader.sumSizes [(20, 2), (10, 2)] ∧
      ((0 : ℚ) < 1 → 1 ≤ pos.size →
        ∀ q, lookupk (Trader.updatePosition (Trader.applyBuys ⟨[], [], [], [], [], [], []⟩
            "A" Outcome.Up [(20, 2), (10, 2)]) "A" Outcome.Up (-1) 12).positions "A"
            = some q →
          q.avgBuyPrice = pos.avgBuyPrice ∧ q.size = pos.size - 1 ∧
          q.currentPrice = 12 ∧ q.outcome = pos.outcome ∧ q.tokenId = pos.tokenId)) :=
  ⟨rfl, by norm_num,
    updatePosition_cost_basis ⟨[], [], [], [], [], [], []⟩ "A" Outcome.Up (20, 2) [(10, 2)]
      1 12 rfl (by norm_num)⟩

/-! ## Signal state machine (Strategy) — src/src/test-strategy.ts -/

/-- The configuration fields read by the embedded Strategy methods. -/
structure StratConfig where
  SELL_BEFORE_START_MS : ℚ
  MIN_TIME_TO_TRADE_MS : ℚ
  STOP_LOSS : ℚ
  STOP_LOSS_PCT : ℚ
  PROFIT_TARGET_PCT : ℚ
  PRICE_FLOOR : ℚ
  PRICE_CEILING : ℚ
  COMBINED_PRICE_CAP : ℚ
  MAX_POSITION_SIZE : ℚ
  BUY_LEADER_PRESTART : Bool
  ALLOW_CURRENT_MARKET_TRADING : Bool
deriving Repr, DecidableEq

/-- Embedding of the `MarketState` snapshot fields read by `generateSignals`
and `tryBuyWithAI`; `currentMarket` and `nextMarket` record the truthiness of
the corresponding market objects. -/
structure MarketState where
  currentMarket : Bool
  nextMarket : Bool
  upTokenId : String
  downTokenId : String
  currentUpTokenId : String
  currentDownTokenId : String
  upPrice : ℚ
  downPrice : ℚ
  currentUpPrice : ℚ
  currentDownPrice : ℚ
  timeToStart : ℚ
  timeToEnd : ℚ
deriving Repr, DecidableEq

/-- The fields of the recommendation engine's output (`AIAnalysis`) consumed
by `tryBuyWithAI`; the engine itself (ai-analyzer.ts) is an external
collaborator, so its output is an input here. -/
structure AIAnalysis where
  recommendedOutcome : Option Outcome
  confidence : ℚ
  recommendedSize : ℚ
deriving Repr, DecidableEq

/-- Embedding of the `TradeSignal` intents produced by the Strategy; the
free-text `reason` string is omitted (it is only logged). -/
structure TradeSignal where
  action : TradeSide
  tokenId : String
  outcome : Outcome
  price : ℚ
  size : ℚ
deriving Repr, DecidableEq

/-- Evaluation scope of an entry attempt: the next market or the current one. -/
inductive Scope
  | next
  | current
deriving DecidableEq, Repr

namespace Strategy

/-- The no-trade analysis returned by `runAIAnalysisSync` when no order books
are cached (test-strategy.ts lines 546–560). -/
def defaultAIAnalysis : AIAnalysis :=
  { recommendedOutcome := none, confidence := 0, recommendedSize := 0 }

/-- SELL intent for an open position, as pushed by the liquidation and
stop-loss/take-profit rules of `generateSignals`. -/
def sellSignal (tokenId : String) (p : Position) : TradeSignal :=
  { action := TradeSide.SELL, tokenId := tokenId, outcome := p.outcome,
    price := p.currentPrice, size := p.size }

/-- One pass of a `generateSignals` for-loop over the positions map that
pushes a SELL for every entry matching condition `C`. -/
def sellRule (positions : List (String × Position)) (C : String × Position → Prop)
    [DecidablePred C] : List TradeSignal :=
  positions.filterMap (fun kv =>
    if C kv then some (sellSignal kv.1 kv.2) else none)

/-- The valid-token set of `generateSignals` lines 151–156: the four interval
tokens, empty strings filtered out. -/
def validTokenIds (state : MarketState) : List String :=
  [state.upTokenId, state.downTokenId, state.currentUpTokenId,
    state.currentDownTokenId].filter (fun id => id ≠ "")

/-- Rule 0 of `generateSignals` (lines 150–174): forced SELL for every
nonzero position whose token is not among the current/next interval tokens. -/
def orphanSells (state : MarketState) (positions : List (String × Position)) :
    List TradeSignal :=
  sellRule positions (fun kv => 0 < kv.2.size ∧ kv.1 ∉ validTokenIds state)

/-- Rule 1a of `generateSignals` (lines 177–192): pre-start forced SELL of
every nonzero position tied to the current interval. -/
def preStartSells (state : MarketState) (positions : List (String × Position)) :
    List TradeSignal :=
  sellRule positions (fun kv => 0 < kv.2.size ∧
    (kv.1 = state.currentUpTokenId ∨ kv.1 = state.currentDownTokenId))

/-- Rule 1b of `generateSignals` (lines 195–209): pre-end forced SELL of every
nonzero position. -/
def preEndSells (positions : List (String × Position)) : List TradeSignal :=
  sellRule positions (fun kv => 0 < kv.2.size)

/-- The stop-loss trigger threshold of `generateSignals` lines 218–220: the
tighter of the absolute and percentage thresholds, where a zero percentage
threshold falls back to positive infinity (`pctThreshold ||
Number.POSITIVE_INFINITY`), leaving the absolute threshold. -/
def stopLossThreshold (cfg : StratConfig) (p : Position) : ℚ :=
  let pctThreshold := cfg.STOP_LOSS_PCT * p.avgBuyPrice
  if pctThreshold = 0 then cfg.STOP_LOSS else min cfg.STOP_LOSS pctThreshold

/-- Rule 2a of `generateSignals` (lines 214–233): stop-loss SELL when the loss
`avgBuyPrice − currentPrice` reaches the trigger threshold. -/
def stopLossSells (cfg : StratConfig) (positions : List (String × Position)) :
    List TradeSignal :=
  sellRule positions (fun kv => 0 < kv.2.size ∧
    stopLossThreshold cfg kv.2 ≤ kv.2.avgBuyPrice - kv.2.currentPrice)

/-- The percentage gain of `generateSignals` lines 242–243 (zero when the
average cost is not positive). -/
def profitPct (p : Position) : ℚ :=
  if 0 < p.avgBuyPrice then (p.currentPrice - p.avgBuyPrice) / p.avgBuyPrice else 0

/-- Rule 2b of `generateSignals` (lines 240–256): take-profit SELL when the
percentage gain reaches the target. -/
def takeProfitSells (cfg : StratConfig) (positions : List (String × Position)) :
    List TradeSignal :=
  sellRule positions (fun kv => 0 < kv.2.size ∧
    cfg.PROFIT_TARGET_PCT ≤ profitPct kv.2)

/-- Leading (higher-priced) side, as computed by `tryBuyWithAI` line 494:
`upPrice > downPrice ? 'Up' : downPrice > upPrice ? 'Down' : null`. -/
def leaderOutcome (upPrice downPrice : ℚ) : Option Outcome :=
  if downPrice < upPrice then some Outcome.Up
  else if upPrice < downPrice then some Outcome.Down
  else none

/-- The pre-start leader-override condition of `tryBuyWithAI` line 495:
toggle on, next-market scope before start, a leading side, and a price gap in
the 5–8¢ band. -/
def leaderOverrideB (cfg : StratConfig) (state : MarketState) (scope : Scope)
    (upPrice downPrice : ℚ) : Bool :=
  cfg.BUY_LEADER_PRESTART && decide (scope = Scope.next) &&
    decide (0 < state.timeToStart) && (leaderOutcome upPrice downPrice).isSome &&
    decide (5 ≤ |upPrice - downPrice|) && decide (|upPrice - downPrice| ≤ 8)

/-- The combined Up+Down price of `tryBuyWithAI` line 489: the held position's
mark price when a position exists at the token, otherwise the quote. -/
def combinedPriceCents (positions : List (String × Position))
    (upTokenId downTokenId : String) (upPrice downPrice : ℚ) : ℚ :=
  ((lookupk positions upTokenId).map Position.currentPrice).getD upPrice +
    ((lookupk positions downTokenId).map Position.currentPrice).getD downPrice

/-- Embedding of `Strategy.tryBuyWithAI` (test-strategy.ts lines 445–534):
the rule-based entry path, including the opposite-side guard, price
floor/ceiling band, combined-price cap with the pre-start leader override,
and the per-instrument size cap. -/
def tryBuyWithAI (cfg : StratConfig) (state : MarketState)
    (positions : List (String × Position)) (upTokenId downTokenId : String)
    (upPrice downPrice : ℚ) (analysis : AIAnalysis) (scope : Scope) :
    Option TradeSignal :=
  match analysis.recommendedOutcome with
  | none => none
  | some rec =>
    let isUp := rec = Outcome.Up
    let tokenId := if isUp then upTokenId else downTokenId
    let price := if isUp then upPrice else downPrice
    let oppositeTokenId := if isUp then downTokenId else upTokenId
    let oppositeSize := ((lookupk positions oppositeTokenId).map Position.size).getD 0
    if 0 < oppositeSize then none
    else if price < cfg.PRICE_FLOOR then none
    else if cfg.PRICE_CEILING < price then none
    else
      let leaderOverride := leaderOverrideB cfg state scope upPrice downPrice
      if leaderOverride = false ∧ cfg.COMBINED_PRICE_CAP * 100 ≤
          combinedPriceCents positions upTokenId downTokenId upPrice downPrice then
        none
      else
        let existingSize := ((lookupk positions tokenId).map Position.size).getD 0
        let remainingCap := max 0 (cfg.MAX_POSITION_SIZE - existingSize)
        if remainingCap ≤ 0 then none
        else
          let finalSize := min analysis.recommendedSize remainingCap
          if leaderOverride = true then
            match leaderOutcome upPrice downPrice with
            | some lo =>
              some { action := TradeSide.BUY,
                     tokenId := if lo = Outcome.Up then upTokenId else downTokenId,
                     outcome := lo,
                     price := if lo = Outcome.Up then upPrice else downPrice,
                     size := finalSize }
            | none => none
          else
            some { action := TradeSide.BUY, tokenId := tokenId, outcome := rec,
                   price := price, size := finalSize }

/-- Embedding of `Strategy.generateSignals` (test-strategy.ts lines 143–309).
The recommendation engine outputs are inputs: `analysisNext` and
`analysisCurrent` are the `analyzeSync` results for the cached next/current
order books (`none` when the corresponding books are not cached, in which
case `runAIAnalysisSync` substitutes the no-trade default). -/
def generateSignals (cfg : StratConfig) (state : MarketState)
    (positions : List (String × Position))
    (analysisNext analysisCurrent : Option AIAnalysis) : List TradeSignal :=
  let orphans := orphanSells state positions
  if orphans ≠ [] then orphans
  else
    let preStart :=
      if state.nextMarket = true ∧ state.timeToStart ≤ cfg.SELL_BEFORE_START_MS then
        preStartSells state positions
      else []
    if preStart ≠ [] then preStart
    else if state.currentMarket = true ∧ 0 < state.timeToEnd ∧
        state.timeToEnd ≤ cfg.SELL_BEFORE_START_MS then
      preEndSells positions
    else
      let isPreMarket := state.currentMarket = false ∧ 0 < state.timeToStart
      let sellChecks : Option (List TradeSignal) :=
        if ¬isPreMarket then
          let stop := stopLossSells cfg positions
          if stop ≠ [] then some stop
          else
            let tp := takeProfitSells cfg positions
            if tp ≠ [] then some tp else none
        else none
      match sellChecks with
      | some sells => sells
      | none =>
        if RiskManager.checkTimeWindow cfg.SELL_BEFORE_START_MS
            cfg.MIN_TIME_TO_TRADE_MS state.timeToStart = false then []
        else
          let s1 :=
            if state.nextMarket = true ∧ cfg.MIN_TIME_TO_TRADE_MS < state.timeToStart then
              tryBuyWithAI cfg state positions state.upTokenId state.downTokenId
                state.upPrice state.downPrice (analysisNext.getD defaultAIAnalysis)
                Scope.next
            else none
          let s2 :=
            if cfg.ALLOW_CURRENT_MARKET_TRADING = true ∧ state.currentMarket = true ∧
                cfg.SELL_BEFORE_START_MS + 60000 < state.timeToEnd then
              tryBuyWithAI cfg state positions state.currentUpTokenId
                state.currentDownTokenId state.currentUpPrice state.currentDownPrice
                (((analysisCurrent).orElse (fun _ => analysisNext)).getD defaultAIAnalysis)
                Scope.current
            else none
          s1.toList ++ s2.toList

end Strategy

/-- C6: when the combined Up+Down price (held position's mark price when
present, else the quote) reaches or exceeds the configured cap and the narrow
pre-start leader override condition does not hold, `tryBuyWithAI` emits no BUY
intent, regardless of the recommendation engine's side and confidence. -/
theorem tryBuyWithAI_combined_cap_blocks (cfg : StratConfig) (state : MarketState)
    (positions : List (String × Position)) (upT downT : String) (upP downP : ℚ)
    (analysis : AIAnalysis) (scope : Scope)
    (hcap : cfg.COMBINED_PRICE_CAP * 100 ≤
      Strategy.combinedPriceCents positions upT downT upP downP)
    (hnoov : Strategy.leaderOverrideB cfg state scope upP downP = false) :
    Strategy.tryBuyWithAI cfg state positions upT downT upP downP analysis scope
      = none := by
  unfold Strategy.tryBuyWithAI
  cases h : analysis.recommendedOutcome with
  | none => rfl
  | some rec =>
    simp only []
    split_ifs with h1 h2 h3 h4 h5 h6 <;>
      first
        | rfl
        | exact absurd (And.intro hnoov hcap) (by assumption)

/-- C6 witness: Up = 58¢, Down = 45¢ (sum 103¢ ≥ cap 98¢), no positions, the
engine recommending Up at 90% confidence, pre-start with the leader toggle on
but a 13¢ gap outside the 5–8¢ override band: no BUY intent. -/
theorem tryBuyWithAI_combined_cap_blocks_witness :
    ((StratConfig.mk 15000 20000 5 (15/100) (5/100) 0 100 (98/100) 100 true
        true).COMBINED_PRICE_CAP * 100 ≤
      Strategy.combinedPriceCents [] "U" "D" 58 45) ∧
    (Strategy.leaderOverrideB
        (StratConfig.mk 15000 20000 5 (15/100) (5/100) 0 100 (98/100) 100 true true)
        (MarketState.mk true true "U" "D" "CU" "CD" 58 45 50 53 30000 300000)
        Scope.next 58 45 = false) ∧
    Strategy.tryBuyWithAI
        (StratConfig.mk 15000 20000 5 (15/100) (5/100) 0 100 (98/100) 100 true true)
        (MarketState.mk true true "U" "D" "CU" "CD" 58 45 50 53 30000 300000)
        [] "U" "D" 58 45 (AIAnalysis.mk (some Outcome.Up) 90 50) Scope.next = none :=
  ⟨by norm_num [Strategy.combinedPriceCents, lookupk],
    by norm_num [Strategy.leaderOverrideB, Strategy.leaderOutcome],
    tryBuyWithAI_combined_cap_blocks
      (StratConfig.mk 15000 20000 5 (15/100) (5/100) 0 100 (98/100) 100 true true)
      (MarketState.mk true true "U" "D" "CU" "CD" 58 45 50 53 30000 300000)
      [] "U" "D" 58 45 (AIAnalysis.mk (some Outcome.Up) 90 50) Scope.next
      (by norm_num [Strategy.combinedPriceCents, lookupk])
      (by norm_num [Strategy.leaderOverrideB, Strategy.leaderOutcome])⟩

namespace Strategy

theorem mem_sellRule_action (positions : List (String × Position))
    (C : String × Position → Prop) [DecidablePred C] (sig : TradeSignal)
    (h : sig ∈ sellRule positions C) : sig.action = TradeSide.SELL := by
  unfold sellRule at h
  obtain ⟨kv, _, hkv⟩ := List.mem_filterMap.mp h
  by_cases hc : C kv
  · rw [if_pos hc] at hkv
    cases hkv
    rfl
  · rw [if_neg hc] at hkv
    cases hkv

end Strategy

/-- C4: `generateSignals` evaluates its rules in strict priority order and
short-circuits: whenever one of the priority rules — orphaned-position
cleanup, pre-start forced liquidation, pre-end forced liquidation, or
stop-loss — produces a signal, the returned intent list is exactly the output
of the highest-priority firing rule, every returned intent is a SELL, and no
BUY intent appears. -/
theorem generateSignals_priority_short_circuit (cfg : StratConfig)
    (state : MarketState) (positions : List (String × Position))
    (aN aC : Option AIAnalysis)
    (hfire : Strategy.orphanSells state positions ≠ [] ∨
      ((state.nextMarket = true ∧ state.timeToStart ≤ cfg.SELL_BEFORE_START_MS) ∧
        Strategy.preStartSells state positions ≠ []) ∨
      ((state.currentMarket = true ∧ 0 < state.timeToEnd ∧
          state.timeToEnd ≤ cfg.SELL_BEFORE_START_MS)) ∨
      (¬(state.currentMarket = false ∧ 0 < state.timeToStart) ∧
        Strategy.stopLossSells cfg positions ≠ [])) :
    (∀ sig ∈ Strategy.generateSignals cfg state positions aN aC,
        sig.action = TradeSide.SELL) ∧
    (Strategy.generateSignals cfg state positions aN aC
        = Strategy.orphanSells state positions ∨
      Strategy.generateSignals cfg state positions aN aC
        = Strategy.preStartSells state positions ∨
      Strategy.generateSignals cfg state positions aN aC
        = Strategy.preEndSells positions ∨
      Strategy.generateSignals cfg state positions aN aC
        = Strategy.stopLossSells cfg positions) := by
  by_cases ho : Strategy.orphanSells state positions ≠ []
  · have hres : Strategy.generateSignals cfg state positions aN aC
        = Strategy.orphanSells state positions := by
      unfold Strategy.generateSignals
      simp [ho]
    exact ⟨fun sig hs => Strategy.mem_sellRule_action positions _ sig (hres ▸ hs),
      Or.inl hres⟩
  · push_neg at ho
    by_cases hps : (state.nextMarket = true ∧
        state.timeToStart ≤ cfg.SELL_BEFORE_START_MS) ∧
        Strategy.preStartSells state positions ≠ []
    · have hres : Strategy.generateSignals cfg state positions aN aC
          = Strategy.preStartSells state positions := by
        unfold Strategy.generateSignals
        simp [ho, hps.1.1, hps.1.2, hps.2]
      exact ⟨fun sig hs => Strategy.mem_sellRule_action positions _ sig (hres ▸ hs),
        Or.inr (Or.inl hres)⟩
    · have hpsempty : (if state.nextMarket = true ∧
          state.timeToStart ≤ cfg.SELL_BEFORE_START_MS then
            Strategy.preStartSells state positions else []) = [] := by
        split_ifs with hc
        · by_cases hne : Strategy.preStartSells state positions = []
          · exact hne
          · exact absurd ⟨hc, hne⟩ hps
        · rfl
      by_cases hpe : state.currentMarket = true ∧ 0 < state.timeToEnd ∧
          state.timeToEnd ≤ cfg.SELL_BEFORE_START_MS
      · have hres : Strategy.generateSignals cfg state positions aN aC
            = Strategy.preEndSells positions := by
          unfold Strategy.generateSignals
          simp [ho, hpsempty, hpe]
        exact ⟨fun sig hs => Strategy.mem_sellRule_action positions _ sig (hres ▸ hs),
          Or.inr (Or.inr (Or.inl hres))⟩
      · -- neither orphan, pre-start, nor pre-end fired: the stop-loss disjunct
        have hsl : ¬(state.currentMarket = false ∧ 0 < state.timeToStart) ∧
            Strategy.stopLossSells cfg positions ≠ [] := by
          rcases hfire with h | h | h | h
          · exact absurd ho h
          · exact absurd h hps
          · exact absurd h hpe
          · exact h
        have hres : Strategy.generateSignals cfg state positions aN aC
            = Strategy.stopLossSells cfg positions := by
          unfold Strategy.generateSignals
          simp [ho, hpsempty, hpe, hsl.1, hsl.2]
        exact ⟨fun sig hs => Strategy.mem_sellRule_action positions _ sig (hres ▸ hs),
          Or.inr (Or.inr (Or.inr hres))⟩

/-- Configuration for the priority-order scenario: forced-exit window 15 s,
minimum lead 20 s, stop-loss 5¢ or 15%, take-profit 5%, price band [0, 100],
combined cap 98¢, position cap 100, leader override off, current-market
trading on. -/
def c4cfg : StratConfig :=
  StratConfig.mk 15000 20000 5 (15/100) (5/100) 0 100 (98/100) 100 false true

/-- Market snapshot for the priority-order scenario: both markets live,
mid-interval (60 s to next start, 300 s to current end). -/
def c4state : MarketState :=
  MarketState.mk true true "NU" "ND" "CU" "CD" 40 45 30 60 60000 300000

/-- A position bought at 40¢ now marked 30¢: a 10¢ loss, beyond the 5¢
stop. -/
def c4positions : List (String × Position) :=
  [("CU", Position.mk "CU" Outcome.Up 10 40 30)]

/-- A recommendation that would fire a pre-market BUY were entries
evaluated. -/
def c4analysis : AIAnalysis := AIAnalysis.mk (some Outcome.Up) 90 50

/-- C4 witness: with both a stop-loss-triggering position and a valid
new-entry recommendation present, the emitted intents are exactly the
stop-loss SELLs and no BUY. -/
theorem generateSignals_priority_short_circuit_witness :
    (Strategy.orphanSells c4state c4positions ≠ [] ∨
      ((c4state.nextMarket = true ∧
          c4state.timeToStart ≤ c4cfg.SELL_BEFORE_START_MS) ∧
        Strategy.preStartSells c4state c4positions ≠ []) ∨
      ((c4state.currentMarket = true ∧ 0 < c4state.timeToEnd ∧
          c4state.timeToEnd ≤ c4cfg.SELL_BEFORE_START_MS)) ∨
      (¬(c4state.currentMarket = false ∧ 0 < c4state.timeToStart) ∧
        Strategy.stopLossSells c4cfg c4positions ≠ [])) ∧
    ((∀ sig ∈ Strategy.generateSignals c4cfg c4state c4positions (some c4analysis)
          none, sig.action = TradeSide.SELL) ∧
      (Strategy.generateSignals c4cfg c4state c4positions (some c4analysis) none
          = Strategy.orphanSells c4state c4positions ∨
        Strategy.generateSignals c4cfg c4state c4positions (some c4analysis) none
          = Strategy.preStartSells c4state c4positions ∨
        Strategy.generateSignals c4cfg c4state c4positions (some c4analysis) none
          = Strategy.preEndSells c4positions ∨
        Strategy.generateSignals c4cfg c4state c4positions (some c4analysis) none
          = Strategy.stopLossSells c4cfg c4positions)) :=
  have hf : Strategy.orphanSells c4state c4positions ≠ [] ∨
      ((c4state.nextMarket = true ∧
          c4state.timeToStart ≤ c4cfg.SELL_BEFORE_START_MS) ∧
        Strategy.preStartSells c4state c4positions ≠ []) ∨
      ((c4state.currentMarket = true ∧ 0 < c4state.timeToEnd ∧
          c4state.timeToEnd ≤ c4cfg.SELL_BEFORE_START_MS)) ∨
      (¬(c4state.currentMarket = false ∧ 0 < c4state.timeToStart) ∧
        Strategy.stopLossSells c4cfg c4positions ≠ []) :=
    Or.inr (Or.inr (Or.inr
      ⟨by norm_num [c4state],
        by
          norm_num [Strategy.stopLossSells, Strategy.sellRule,
            Strategy.stopLossThreshold, Strategy.sellSignal, c4cfg, c4positions]
          intro h
          exact Option.noConfusion h⟩))
  ⟨hf, generateSignals_priority_short_circuit c4cfg c4state c4positions
    (some c4analysis) none hf⟩

/-! ## Trader venue methods — src/unnamed/part_002

Venue I/O is passed in as oracle records; an `Option` result of `none` stands
for a thrown exception at that call site.  Raw on-chain amounts are the
`parseFloat` results, divided by 1e6 inside the embedding exactly as in the
source. -/

/-- The configuration fields read by the embedded Trader methods. -/
structure TraderConfig where
  PAPER_TRADING : Bool
  PROFIT_TARGET : ℚ
  PROFIT_TARGET_PCT : ℚ
deriving Repr, DecidableEq

/-- Venue responses for `marketSellRemainder`: the balance/allowance query
(outer `none` = throw, inner `none` = falsy response) and the market sell
order post (`none` = throw). -/
structure MSRVenue where
  balances : Option (Option (ℚ × ℚ))
  post : Option String
deriving Repr, DecidableEq

/-- Venue responses for `placeLimitSellForPosition`:
`existingCheck` answers `getOrder` on the recorded pending sell order as
(order-present, status); `fillSyncBal` is the balance re-query in the filled
branch; `balances` the main balance/allowance query; `openSells` the SELL-side
open orders; `post` the limit sell order post; `msr` the oracle for a
`marketSellRemainder` sub-call. -/
structure LSVenue where
  existingCheck : Option (Bool × String)
  fillSyncBal : Option ℚ
  balances : Option (Option (ℚ × ℚ))
  openSells : Option (List String)
  post : Option String
  msr : MSRVenue
deriving Repr, DecidableEq

/-- Venue responses for `forceLiquidate`: the allowance query and the market
sell post. -/
structure FLVenue where
  allowance : Option ℚ
  post : Option String
deriving Repr, DecidableEq

/-- One iteration of the `buy` balance-confirmation poll: the
balance/allowance query result and, when the approve path is taken, the
allowance read back after `updateBalanceAllowance`. -/
structure BalancePoll where
  res : Option (ℚ × ℚ)
  updAllowance : Option ℚ
deriving Repr, DecidableEq

/-- Venue responses for `buy`: `getOrderStatus` answers `getOrder` per order
id during the pending-buy cleanup loop; `openBuys` the number of open BUY
orders; `postOrder` the buy order post; `avgPolls` the up-to-five `getOrder`
polls for the average fill price (outer `none` = throw, inner `none` = no
average yet); `balancePolls` the up-to-ten confirmation polls; `ls` the
oracle for the final `placeLimitSellForPosition` sub-call. -/
structure BuyVenue where
  getOrderStatus : String → Option String
  openBuys : Option Nat
  postOrder : Option String
  avgPolls : List (Option (Option ℚ))
  balancePolls : List BalancePoll
  ls : LSVenue

/-- Venue responses for `syncPositionsFromApi`: the raw balance reported for
the Up and Down tokens (`none` = the query threw). -/
structure SyncVenue where
  upBal : Option ℚ
  downBal : Option ℚ
deriving Repr, DecidableEq

namespace Trader

/-- Embedding of `Trader.marketSellRemainder` (part_002 lines 955–1016):
market-sell a sub-one-share remainder; on a thrown venue call the catch block
deletes the local position and pending-sell entries. -/
def marketSellRemainder (cfg : TraderConfig) (venue : MSRVenue) (s : TraderState)
    (tokenId : String) (outcome : Outcome) (currentPrice now : ℚ) :
    Bool × TraderState :=
  if cfg.PAPER_TRADING then (false, s)
  else
    match venue.balances with
    | none =>
      (false, { s with positions := erasek s.positions tokenId,
                       pendingSellOrders := erasek s.pendingSellOrders tokenId })
    | some none => (false, s)
    | some (some (bal, alw)) =>
      let rawBalance := bal / 1000000
      let rawAllowance := alw / 1000000
      let rawAllowance :=
        if rawAllowance < 1/100 ∧ 1/100 < rawBalance then rawBalance
        else rawAllowance
      if rawAllowance ≤ 0 ∨ 1 ≤ rawAllowance then (false, s)
      else
        let sellSize := round2 rawAllowance
        if sellSize ≤ 0 then
          (false, { s with positions := erasek s.positions tokenId,
                           pendingSellOrders := erasek s.pendingSellOrders tokenId })
        else
          match venue.post with
          | none =>
            (false, { s with positions := erasek s.positions tokenId,
                             pendingSellOrders := erasek s.pendingSellOrders tokenId })
          | some _ =>
            let pos := lookupk s.positions tokenId
            let pnl := match pos with
              | some p => (currentPrice - p.avgBuyPrice) * sellSize
              | none => 0
            let costCents := pos.map (fun p => p.avgBuyPrice * sellSize)
            let s1 := recordTrade s now tokenId outcome TradeSide.SELL currentPrice
              sellSize (some pnl) costCents (some tokenId)
            let s2 := updatePosition s1 tokenId outcome (-sellSize) currentPrice
            (true, { s2 with pendingSellOrders := erasek s2.pendingSellOrders tokenId })

/-- The main body of `placeLimitSellForPosition` (part_002 lines 864–949),
entered after the existing-pending-order check.  The approve-and-requery
block (lines 890–907) only recomputes a local variable that is never read
afterwards and changes no state, so it is omitted. -/
def placeLimitSellMain (cfg : TraderConfig) (venue : LSVenue) (s : TraderState)
    (tokenId : String) (outcome : Outcome) (buyPrice currentPrice now : ℚ) :
    Bool × TraderState :=
  match venue.balances with
  | none => (false, s)
  | some none => (false, s)
  | some (some (bal, _alw)) =>
    let rawBalance := bal / 1000000
    let openResult : Option (Bool × TraderState) :=
      match venue.openSells with
      | none => none
      | some sells =>
        match sells with
        | [] => none
        | oid :: _ =>
          let oid2 := if oid = "" then "existing" else oid
          some (true, { s with pendingSellOrders := setk s.pendingSellOrders tokenId oid2 })
    match openResult with
    | some r => r
    | none =>
      let actualSize := if 1/20 < rawBalance then (⌊rawBalance * 10⌋ : ℚ) / 10 else 0
      if actualSize ≤ 0 then
        (false, { s with positions := erasek s.positions tokenId,
                         pendingSellOrders := erasek s.pendingSellOrders tokenId })
      else if actualSize < 5 then
        let cleaned := marketSellRemainder cfg venue.msr s tokenId outcome currentPrice now
        if cleaned.1 = false then
          (false, { cleaned.2 with
            positions := erasek cleaned.2.positions tokenId,
            pendingSellOrders := erasek cleaned.2.pendingSellOrders tokenId })
        else
          (false, { cleaned.2 with
            pendingSellOrders := erasek cleaned.2.pendingSellOrders tokenId })
      else
        -- posted at target price buyPrice * (1 + PROFIT_TARGET_PCT) / 100,
        -- which affects only the venue order, not local state
        let _targetSellPrice := buyPrice * (1 + cfg.PROFIT_TARGET_PCT)
        match venue.post with
        | none => (false, s)
        | some oid =>
          (true, { s with pendingSellOrders := setk s.pendingSellOrders tokenId oid })

/-- Embedding of `Trader.placeLimitSellForPosition` (part_002 lines 813–950):
re-arm the take-profit limit sell for a held position, first resolving any
recorded pending sell order. -/
def placeLimitSellForPosition (cfg : TraderConfig) (venue : LSVenue)
    (s : TraderState) (tokenId : String) (outcome : Outcome)
    (buyPrice currentPrice now : ℚ) : Bool × TraderState :=
  if cfg.PAPER_TRADING then (false, s)
  else
    match lookupk s.pendingSellOrders tokenId with
    | some existingOrder =>
      if existingOrder.length = 0 then
        placeLimitSellMain cfg venue s tokenId outcome buyPrice currentPrice now
      else if existingOrder = "under-min-size" then
        (true, { s with positions := erasek s.positions tokenId,
                        pendingSellOrders := erasek s.pendingSellOrders tokenId })
      else
        match venue.existingCheck with
        | none =>
          placeLimitSellMain cfg venue
            { s with pendingSellOrders := erasek s.pendingSellOrders tokenId }
            tokenId outcome buyPrice currentPrice now
        | some (present, status) =>
          if status ≠ "" ∧ jsToLower status = "filled" then
            let s1 := { s with pendingSellOrders := erasek s.pendingSellOrders tokenId }
            match venue.fillSyncBal with
            | none => (true, s1)
            | some bal =>
              let rawBalance := bal / 1000000
              match lookupk s1.positions tokenId with
              | some pos =>
                let pos2 := { pos with size := rawBalance }
                (true, { s1 with positions := setk s1.positions tokenId pos2 })
              | none => (true, s1)
          else if present = false ∨ jsToLower status = "cancelled" ∨
              jsToLower status = "canceled" then
            placeLimitSellMain cfg venue
              { s with pendingSellOrders := erasek s.pendingSellOrders tokenId }
              tokenId outcome buyPrice currentPrice now
          else (true, s)
    | none => placeLimitSellMain cfg venue s tokenId outcome buyPrice currentPrice now

/-- Embedding of `Trader.forceLiquidate` (part_002 lines 1178–1235): cancel
bookkeeping and market-sell the full reconciled balance.  Local state is
cleared on success and on a zero sellable balance; the catch blocks (a thrown
balance query or order post) return `false` WITHOUT touching local state. -/
def forceLiquidate (cfg : TraderConfig) (venue : FLVenue) (s : TraderState)
    (tokenId : String) (outcome : Outcome) (currentPrice now : ℚ) :
    Bool × TraderState :=
  if cfg.PAPER_TRADING then
    let s1 :=
      match lookupk s.positions tokenId with
      | some pos =>
        if 0 < pos.size then
          recordTrade s now tokenId outcome TradeSide.SELL currentPrice pos.size
            (some ((currentPrice - pos.avgBuyPrice) * pos.size))
            (some (pos.avgBuyPrice * pos.size)) none
        else s
      | none => s
    (true, { s1 with positions := erasek s1.positions tokenId,
                     pendingSellOrders := erasek s1.pendingSellOrders tokenId })
  else
    match venue.allowance with
    | none => (false, s)
    | some alw =>
      let rawAllowance := alw / 1000000
      let sellSize := round1 rawAllowance
      if sellSize ≤ 0 then
        (true, { s with positions := erasek s.positions tokenId,
                        pendingSellOrders := erasek s.pendingSellOrders tokenId })
      else
        match venue.post with
        | none => (false, s)
        | some _ =>
          (true, { s with positions := erasek s.positions tokenId,
                          pendingSellOrders := erasek s.pendingSellOrders tokenId })

/-- The cost-basis estimate used when seeding a position during
reconciliation (part_002 lines 738–740): the persisted cached average, else
the price of the most recent BUY trade for the token, else the quote. -/
def seedPriceOf (s : TraderState) (tokenId : String) (price : ℚ) : ℚ :=
  let lastBuy := (s.tradeHistory.reverse).find? (fun t =>
    t.side = TradeSide.BUY ∧ t.tokenId = tokenId)
  let cached := lookupk s.cachedAvgPrices tokenId
  cached.getD ((lastBuy.map TradeRecord.price).getD price)

/-- One half of `Trader.syncPositionsFromApi` (part_002 lines 732–768 for Up,
770–804 for Down): reconcile one token against its venue-reported balance.
A missing local position with balance ≥ 0.001 is seeded with cost estimate
`cachedAvgPrices ?? last BUY trade price ?? quote`; an existing position only
has size and mark price refreshed; a balance below 0.0001 deletes the
position and its bookkeeping. -/
def syncToken (s : TraderState) (tokenId : String) (outcome : Outcome)
    (price : ℚ) (rawBal : ℚ) : TraderState :=
  let balance := rawBal / 1000000
  if 1/1000 ≤ balance then
    match lookupk s.positions tokenId with
    | none =>
      let seedPrice := seedPriceOf s tokenId price
      { s with
        positions := setk s.positions tokenId
          ({ tokenId := tokenId, outcome := outcome, size := balance,
             avgBuyPrice := seedPrice, currentPrice := price }),
        cachedAvgPrices := setk s.cachedAvgPrices tokenId seedPrice }
    | some pos =>
      let pos2 := { pos with size := balance, currentPrice := price }
      { s with positions := setk s.positions tokenId pos2 }
  else
    match lookupk s.positions tokenId with
    | some _ =>
      if balance < 1/10000 then
        { s with positions := erasek s.positions tokenId,
                 pendingSellOrders := erasek s.pendingSellOrders tokenId,
                 bracketOrdersPlaced := s.bracketOrdersPlaced.filter (· ≠ tokenId),
                 stopLossWatch := erasek s.stopLossWatch tokenId,
                 cachedAvgPrices := erasek s.cachedAvgPrices tokenId }
      else s
    | none => s

/-- Embedding of `Trader.syncPositionsFromApi` (part_002 lines 726–808): the
Up token is reconciled first; a thrown balance query aborts the rest of the
method, keeping any changes already applied. -/
def syncPositionsFromApi (cfg : TraderConfig) (venue : SyncVenue) (s : TraderState)
    (upTokenId downTokenId : String) (upPrice downPrice : ℚ) : TraderState :=
  if cfg.PAPER_TRADING then s
  else
    match venue.upBal with
    | none => s
    | some upRaw =>
      let s1 := syncToken s upTokenId Outcome.Up upPrice upRaw
      match venue.downBal with
      | none => s1
      | some downRaw => syncToken s1 downTokenId Outcome.Down downPrice downRaw

/-- The pending-buy cleanup loop at the top of `Trader.buy` (part_002 lines
1028–1044), iterating over a snapshot of the pending-buy map: an
opposite-side entry still reported `open` (or a failed status query) aborts
the buy; entries reported filled/cancelled are dropped from the map. -/
def buyPendingLoop (outcome : Outcome) (getOrderStatus : String → Option String) :
    List (String × PendingBuy) → TraderState → Option Bool × TraderState
  | [], s => (none, s)
  | (pendingToken, pending) :: rest, s =>
    if pending.outcome ≠ outcome then
      match getOrderStatus pending.orderId with
      | none => (some false, s)
      | some status =>
        if status ≠ "" ∧ jsToLower status = "open" then (some false, s)
        else
          buyPendingLoop outcome getOrderStatus rest
            { s with pendingBuyOrders := erasek s.pendingBuyOrders pendingToken }
    else buyPendingLoop outcome getOrderStatus rest s

/-- The average-fill-price polling loop of `buy` (part_002 lines 1094–1107):
up to five `getOrder` polls; the first reported average wins, a thrown poll
abandons the loop, and the submitted price is kept otherwise. -/
def buyAvgLoop (buyPriceCents : ℚ) : List (Option (Option ℚ)) → ℚ
  | [] => buyPriceCents
  | none :: _ => buyPriceCents
  | some none :: rest => buyAvgLoop buyPriceCents rest
  | some (some avg) :: _ => (jsRound (avg * 100) : ℚ)

/-- The balance-confirmation polling loop of `buy` (part_002 lines 1111–1145):
up to ten polls; a fill is confirmed when the balance reaches 90% of the
requested size, reading the sellable size from the allowance (after an
approve round-trip when the allowance lags), rounded to 0.1 share.  Returns 0
when no poll confirms. -/
def buyBalanceLoop (size : ℚ) : List BalancePoll → ℚ
  | [] => 0
  | poll :: rest =>
    match poll.res with
    | none => buyBalanceLoop size rest
    | some (bal, alw) =>
      let rawBalance := bal / 1000000
      let rawAllowance := alw / 1000000
      if size * (9/10) ≤ rawBalance then
        if rawAllowance < rawBalance * (9/10) then
          match poll.updAllowance with
          | none => buyBalanceLoop size rest
          | some a2 => round1 (a2 / 1000000)
        else round1 rawAllowance
      else buyBalanceLoop size rest

/-- Embedding of `Trader.buy` (part_002 lines 1021–1173).  Returns the
boolean result and the new ledger state.  Note the non-fill path (lines
1147–1154): when the bounded polling never confirms a fill, the local
position and pending-order entries for the token are deleted and the method
still returns `true`. -/
def buy (cfg : TraderConfig) (venue : BuyVenue) (s : TraderState)
    (tokenId : String) (outcome : Outcome) (price size now : ℚ) :
    Bool × TraderState :=
  match buyPendingLoop outcome venue.getOrderStatus s.pendingBuyOrders s with
  | (some r, s1) => (r, s1)
  | (none, s1) =>
    if s1.positions.any (fun kv => decide (0 < kv.2.size ∧ kv.2.outcome ≠ outcome)) then
      (false, s1)
    else if cfg.PAPER_TRADING then
      let s2 := updatePosition s1 tokenId outcome size price
      let s3 := recordTrade s2 now tokenId outcome TradeSide.BUY price size none none
        (some tokenId)
      let paperId := "paper-" ++ toString now
      (true, { s3 with pendingSellOrders := setk s3.pendingSellOrders tokenId paperId })
    else
      match venue.openBuys with
      | none => (false, s1)
      | some nOpen =>
        if 0 < nOpen then (true, s1)
        else
          let buyPrice := min (price / 100 + 1/100) (99/100)
          let buyPriceCents := (jsRound (buyPrice * 100) : ℚ)
          match venue.postOrder with
          | none => (false, s1)
          | some oid =>
            let entry : PendingBuy := { orderId := oid, outcome := outcome }
            let s2 := { s1 with pendingBuyOrders := setk s1.pendingBuyOrders tokenId entry }
            let executedPriceCents := buyAvgLoop buyPriceCents (venue.avgPolls.take 5)
            let actualSize := buyBalanceLoop size (venue.balancePolls.take 10)
            if actualSize ≤ 0 then
              (true, { s2 with positions := erasek s2.positions tokenId,
                               pendingSellOrders := erasek s2.pendingSellOrders tokenId,
                               pendingBuyOrders := erasek s2.pendingBuyOrders tokenId })
            else
              let s3 := updatePosition s2 tokenId outcome actualSize executedPriceCents
              let s4 := recordTrade s3 now tokenId outcome TradeSide.BUY
                executedPriceCents actualSize none none (some tokenId)
              let s5 := { s4 with pendingBuyOrders := erasek s4.pendingBuyOrders tokenId }
              if actualSize < 5 then (true, s5)
              else
                (true, (placeLimitSellForPosition cfg venue.ls s5 tokenId outcome
                  executedPriceCents executedPriceCents now).2)

end Trader

namespace AList

theorem mem_of_mem_erasek {α : Type} {l : List (String × α)} {key : String}
    {kv : String × α} (h : kv ∈ erasek l key) : kv ∈ l := by
  induction l with
  | nil => simp [erasek] at h
  | cons hd tl ih =>
    rcases hd with ⟨k0, v0⟩
    simp only [erasek] at h
    by_cases hk0 : k0 = key
    · rw [if_pos hk0] at h
      exact List.mem_cons_of_mem _ (ih h)
    · rw [if_neg hk0] at h
      rcases List.mem_cons.mp h with h | h
      · exact h ▸ List.mem_cons_self _ _
      · exact List.mem_cons_of_mem _ (ih h)

theorem mem_setk {α : Type} {l : List (String × α)} {key : String} {v : α}
    {kv : String × α} (h : kv ∈ setk l key v) : kv = (key, v) ∨ kv ∈ l := by
  induction l with
  | nil => simpa [setk] using h
  | cons hd tl ih =>
    rcases hd with ⟨k0, v0⟩
    simp only [setk] at h
    by_cases hk0 : k0 = key
    · rw [if_pos hk0] at h
      rcases List.mem_cons.mp h with h | h
      · exact Or.inl h
      · exact Or.inr (List.mem_cons_of_mem _ h)
    · rw [if_neg hk0] at h
      rcases List.mem_cons.mp h with h | h
      · exact Or.inr (h ▸ List.mem_cons_self _ _)
      · rcases ih h with h | h
        · exact Or.inl h
        · exact Or.inr (List.mem_cons_of_mem _ h)

theorem mem_of_lookupk {α : Type} {l : List (String × α)} {k : String} {v : α}
    (h : lookupk l k = some v) : (k, v) ∈ l := by
  induction l with
  | nil => simp [lookupk] at h
  | cons hd tl ih =>
    rcases hd with ⟨k0, v0⟩
    simp only [lookupk] at h
    by_cases hk0 : k0 = k
    · rw [if_pos hk0] at h
      cases h
      exact hk0 ▸ List.mem_cons_self _ _
    · rw [if_neg hk0] at h
      exact List.mem_cons_of_mem _ (ih h)

end AList

/-! ## The single-side ledger invariant (claim C1) -/

/-- Every stored position carries the outcome that belongs to its token: in
the venue data model each tokenId denotes one fixed side of one interval, and
intents pair a tokenId with that side. -/
def OutcomesConsistent (side : String → Outcome)
    (ps : List (String × Position)) : Prop :=
  ∀ kv ∈ ps, kv.2.outcome = side kv.1

/-- No two positions of nonzero size are held on opposite sides (the Trader
enforces this globally, hence in particular per interval). -/
def SingleSide (ps : List (String × Position)) : Prop :=
  ∀ p ∈ ps, ∀ q ∈ ps, 0 < p.2.size → 0 < q.2.size → p.2.outcome = q.2.outcome

/-- Every nonzero position is on side `o` — the situation after `buy`'s
opposite-side guard has passed for a buy of outcome `o`. -/
def AllSideIs (o : Outcome) (ps : List (String × Position)) : Prop :=
  ∀ kv ∈ ps, 0 < kv.2.size → kv.2.outcome = o

/-- The ledger invariant of claim C1. -/
def LedgerInv (side : String → Outcome) (s : TraderState) : Prop :=
  OutcomesConsistent side s.positions ∧ SingleSide s.positions

theorem singleSide_of_allSideIs {o : Outcome} {ps : List (String × Position)}
    (h : AllSideIs o ps) : SingleSide ps :=
  fun p hp q hq hps hqs => (h p hp hps).trans (h q hq hqs).symm

/-- The combined facts carried through the mutation sites of a live buy of
outcome `o` at a consistent token. -/
def PosInv (side : String → Outcome) (o : Outcome)
    (ps : List (String × Position)) : Prop :=
  OutcomesConsistent side ps ∧ AllSideIs o ps

theorem posInv_erasek {side : String → Outcome} {o : Outcome}
    {ps : List (String × Position)} (h : PosInv side o ps) (t : String) :
    PosInv side o (erasek ps t) :=
  ⟨fun kv hkv => h.1 kv (mem_of_mem_erasek hkv),
    fun kv hkv hs => h.2 kv (mem_of_mem_erasek hkv) hs⟩

theorem posInv_filter {side : String → Outcome} {o : Outcome}
    {ps : List (String × Position)} (h : PosInv side o ps) (p : String × Position → Bool) :
    PosInv side o (ps.filter p) :=
  ⟨fun kv hkv => h.1 kv (List.mem_of_mem_filter hkv),
    fun kv hkv hs => h.2 kv (List.mem_of_mem_filter hkv) hs⟩

theorem posInv_setk {side : String → Outcome} {o : Outcome}
    {ps : List (String × Position)} (h : PosInv side o ps) {t : String}
    {v : Position} (hvc : v.outcome = side t) (hvo : 0 < v.size → v.outcome = o) :
    PosInv side o (setk ps t v) := by
  constructor
  · intro kv hkv
    rcases mem_setk hkv with hkv | hkv
    · rw [hkv]
      exact hvc
    · exact h.1 kv hkv
  · intro kv hkv hs
    rcases mem_setk hkv with hkv | hkv
    · rw [hkv] at hs ⊢
      exact hvo hs
    · exact h.2 kv hkv hs

theorem updatePosition_positions_cases (s : TraderState) (t : String) (o : Outcome)
    (δ p : ℚ) :
    (Trader.updatePosition s t o δ p).positions = erasek s.positions t ∨
    ∃ v : Position,
      v.outcome = ((lookupk s.positions t).getD
        { tokenId := t, outcome := o, size := 0, avgBuyPrice := 0,
          currentPrice := 0 }).outcome ∧
      (Trader.updatePosition s t o δ p).positions = setk s.positions t v := by
  unfold Trader.updatePosition
  dsimp only
  split_ifs with h1 h2 h3
  · exact Or.inl rfl
  · refine Or.inr ⟨_, ?_, rfl⟩
    rfl
  · exact Or.inl rfl
  · refine Or.inr ⟨_, ?_, rfl⟩
    rfl

theorem posInv_updatePosition {side : String → Outcome} {o : Outcome}
    (s : TraderState) (t : String) (δ p : ℚ)
    (h : PosInv side o s.positions) (ht : o = side t) :
    PosInv side o (Trader.updatePosition s t o δ p).positions := by
  rcases updatePosition_positions_cases s t o δ p with hc | ⟨v, hvout, hc⟩
  · rw [hc]
    exact posInv_erasek h t
  · rw [hc]
    have hvc : v.outcome = side t := by
      rw [hvout]
      rcases hlk : lookupk s.positions t with _ | pos
      · simp [ht]
      · simpa using h.1 (t, pos) (mem_of_lookupk hlk)
    exact posInv_setk h hvc (fun _ => hvc.trans ht.symm)

theorem posInv_marketSellRemainder {side : String → Outcome} {o : Outcome}
    (cfg : TraderConfig) (venue : MSRVenue) (s : TraderState) (t : String)
    (currentPrice now : ℚ) (h : PosInv side o s.positions) (ht : o = side t) :
    PosInv side o (Trader.marketSellRemainder cfg venue s t o currentPrice now).2.positions := by
  unfold Trader.marketSellRemainder
  split_ifs with h1
  · exact h
  · rcases venue.balances with _ | b
    · exact posInv_erasek h t
    · rcases b with _ | ba
      · exact h
      · rcases ba with ⟨bal, alw⟩
        dsimp only
        split_ifs <;>
          first
            | exact h
            | exact posInv_erasek h t
            | (rcases venue.post with _ | oid <;>
                first
                  | exact posInv_erasek h t
                  | exact posInv_updatePosition _ t _ _ h ht)

theorem posInv_placeLimitSellMain {side : String → Outcome} {o : Outcome}
    (cfg : TraderConfig) (venue : LSVenue) (s : TraderState) (t : String)
    (buyPrice currentPrice now : ℚ) (h : PosInv side o s.positions) (ht : o = side t) :
    PosInv side o
      (Trader.placeLimitSellMain cfg venue s t o buyPrice currentPrice now).2.positions := by
  unfold Trader.placeLimitSellMain
  rcases venue.balances with _ | b
  · exact h
  · rcases b with _ | ba
    · exact h
    · rcases ba with ⟨bal, alw⟩
      dsimp only
      rcases venue.openSells with _ | sells
      · dsimp only
        split_ifs <;>
          first
            | exact h
            | exact posInv_erasek h t
            | exact posInv_erasek (posInv_marketSellRemainder cfg venue.msr s t
                currentPrice now h ht) t
            | exact posInv_marketSellRemainder cfg venue.msr s t currentPrice now h ht
            | (rcases venue.post with _ | oid <;> exact h)
      · rcases sells with _ | ⟨oid, rest⟩
        · dsimp only
          split_ifs <;>
            first
              | exact h
              | exact posInv_erasek h t
              | exact posInv_erasek (posInv_marketSellRemainder cfg venue.msr s t
                  currentPrice now h ht) t
              | exact posInv_marketSellRemainder cfg venue.msr s t currentPrice now h ht
              | (rcases venue.post with _ | oid2 <;> exact h)
        · exact h

theorem posInv_placeLimitSellForPosition {side : String → Outcome} {o : Outcome}
    (cfg : TraderConfig) (venue : LSVenue) (s : TraderState) (t : String)
    (buyPrice currentPrice now : ℚ) (h : PosInv side o s.positions) (ht : o = side t) :
    PosInv side o
      (Trader.placeLimitSellForPosition cfg venue s t o buyPrice currentPrice
        now).2.positions := by
  unfold Trader.placeLimitSellForPosition
  split_ifs with h1
  · exact h
  · rcases lookupk s.pendingSellOrders t with _ | existingOrder
    · exact posInv_placeLimitSellMain cfg venue s t buyPrice currentPrice now h ht
    · simp only []
      split_ifs with h2 h3
      · exact posInv_placeLimitSellMain cfg venue s t buyPrice currentPrice now h ht
      · exact posInv_erasek h t
      · rcases venue.existingCheck with _ | pc
        · exact posInv_placeLimitSellMain cfg venue _ t buyPrice currentPrice now h ht
        · rcases pc with ⟨present, status⟩
          simp only []
          split_ifs with h4 h5
          · rcases venue.fillSyncBal with _ | bal
            · exact h
            · simp only []
              rcases hlk : lookupk s.positions t with _ | pos
              · exact h
              · have hvc : pos.outcome = side t := by
                  simpa using h.1 (t, pos) (mem_of_lookupk hlk)
                exact posInv_setk h hvc (fun _ => hvc.trans ht.symm)
          · exact posInv_placeLimitSellMain cfg venue _ t buyPrice currentPrice now h ht
          · exact h

theorem ledgerInv_of_posInv {side : String → Outcome} {o : Outcome}
    {s : TraderState} (h : PosInv side o s.positions) : LedgerInv side s :=
  ⟨h.1, singleSide_of_allSideIs h.2⟩

theorem buyPendingLoop_spec (o : Outcome) (gos : String → Option String) :
    ∀ (l : List (String × PendingBuy)) (s : TraderState),
      ((Trader.buyPendingLoop o gos l s).1 = none ∨
        (Trader.buyPendingLoop o gos l s).1 = some false) ∧
      (Trader.buyPendingLoop o gos l s).2.positions = s.positions := by
  intro l
  induction l with
  | nil => exact fun s => ⟨Or.inl rfl, rfl⟩
  | cons hd tl ih =>
    intro s
    rcases hd with ⟨pt, pd⟩
    simp only [Trader.buyPendingLoop]
    split_ifs with h1
    · cases hgos : gos pd.orderId with
      | none => exact ⟨Or.inr rfl, rfl⟩
      | some status =>
        dsimp only
        split_ifs with h2
        · exact ⟨Or.inr rfl, rfl⟩
        · exact ih _
    · exact ih s

theorem allSideIs_of_any_false (o : Outcome) (ps : List (String × Position))
    (h : ¬ps.any (fun kv => decide (0 < kv.2.size ∧ kv.2.outcome ≠ o)) = true) :
    AllSideIs o ps := by
  intro kv hkv hs
  by_contra hne
  exact h (List.any_eq_true.mpr ⟨kv, hkv, by simp [hs, hne]⟩)

theorem ledgerInv_buy (side : String → Outcome) (cfg : TraderConfig)
    (venue : BuyVenue) (s : TraderState) (t : String) (o : Outcome)
    (price size now : ℚ) (h : LedgerInv side s) (ht : o = side t) :
    LedgerInv side (Trader.buy cfg venue s t o price size now).2 := by
  unfold Trader.buy
  obtain ⟨hres, hpos⟩ :=
    buyPendingLoop_spec o venue.getOrderStatus s.pendingBuyOrders s
  rcases hloop : Trader.buyPendingLoop o venue.getOrderStatus s.pendingBuyOrders s
    with ⟨r, s1⟩
  rw [hloop] at hres hpos
  simp only at hres hpos
  cases r with
  | some r0 =>
    show LedgerInv side s1
    unfold LedgerInv
    rw [hpos]
    exact h
  | none =>
    dsimp only
    by_cases hany :
        s1.positions.any (fun kv => decide (0 < kv.2.size ∧ kv.2.outcome ≠ o)) = true
    · rw [if_pos hany]
      show LedgerInv side s1
      unfold LedgerInv
      rw [hpos]
      exact h
    · have hall : AllSideIs o s1.positions := allSideIs_of_any_false o s1.positions hany
      have hinv : PosInv side o s1.positions := by
        refine ⟨?_, hall⟩
        rw [hpos]
        exact h.1
      rw [if_neg hany]
      have hs1 : LedgerInv side s1 := by
        unfold LedgerInv
        rw [hpos]
        exact h
      by_cases hp : cfg.PAPER_TRADING = true
      · rw [if_pos hp]
        exact ledgerInv_of_posInv (posInv_updatePosition s1 t size price hinv ht)
      · rw [if_neg hp]
        rcases venue.openBuys with _ | n
        · exact hs1
        · dsimp only
          by_cases hn : 0 < n
        
          · rw [if_pos hn]
            exact hs1
          · rw [if_neg hn]
            rcases venue.postOrder with _ | oid
            · exact hs1
            · dsimp only
              by_cases hsz : Trader.buyBalanceLoop size (venue.balancePolls.take 10) ≤ 0
              · rw [if_pos hsz]
                exact ledgerInv_of_posInv (posInv_erasek hinv t)
              · rw [if_neg hsz]
                by_cases h5 : Trader.buyBalanceLoop size (venue.balancePolls.take 10) < 5
                · rw [if_pos h5]
                  exact ledgerInv_of_posInv (posInv_updatePosition _ t _ _ hinv ht)
                · rw [if_neg h5]
                  exact ledgerInv_of_posInv
                    (posInv_placeLimitSellForPosition cfg venue.ls _ t _ _ now
                      (posInv_updatePosition _ t _ _ hinv ht) ht)

theorem buy_refuses_opposite (cfg : TraderConfig) (venue : BuyVenue)
    (s : TraderState) (t : String) (o : Outcome) (price size now : ℚ)
    (hopp : ∃ kv ∈ s.positions, 0 < kv.2.size ∧ kv.2.outcome ≠ o) :
    (Trader.buy cfg venue s t o price size now).1 = false ∧
    (Trader.buy cfg venue s t o price size now).2.positions = s.positions := by
  unfold Trader.buy
  obtain ⟨hres, hpos⟩ :=
    buyPendingLoop_spec o venue.getOrderStatus s.pendingBuyOrders s
  rcases hloop : Trader.buyPendingLoop o venue.getOrderStatus s.pendingBuyOrders s
    with ⟨r, s1⟩
  rw [hloop] at hres hpos
  simp only at hres hpos
  cases r with
  | some r0 =>
    rcases hres with hres | hres
    · cases hres
    · cases hres
      exact ⟨rfl, hpos⟩
  | none =>
    obtain ⟨kv, hkv, hkvsz, hkvo⟩ := hopp
    have hany :
        s1.positions.any (fun kv => decide (0 < kv.2.size ∧ kv.2.outcome ≠ o)) = true :=
      List.any_eq_true.mpr ⟨kv, hpos ▸ hkv, by simp [hkvsz, hkvo]⟩
    dsimp only
    rw [if_pos hany]
    exact ⟨rfl, hpos⟩

/-- A BUY intent executed through the Ledger: a call to `Trader.buy` together
with the venue responses observed during that call. -/
structure BuyIntent where
  venue : BuyVenue
  tokenId : String
  outcome : Outcome
  price : ℚ
  size : ℚ
  now : ℚ

/-- A sequence of BUY intents executed through `Trader.buy`. -/
def execBuys (cfg : TraderConfig) (s : TraderState) (intents : List BuyIntent) :
    TraderState :=
  intents.foldl
    (fun st i => (Trader.buy cfg i.venue st i.tokenId i.outcome i.price i.size i.now).2)
    s

theorem ledgerInv_execBuys (side : String → Outcome) (cfg : TraderConfig) :
    ∀ (intents : List BuyIntent) (s : TraderState), LedgerInv side s →
      (∀ i ∈ intents, i.outcome = side i.tokenId) →
      LedgerInv side (execBuys cfg s intents) := by
  intro intents
  induction intents with
  | nil => exact fun s h _ => h
  | cons i rest ih =>
    intro s h hside
    exact ih _
      (ledgerInv_buy side cfg i.venue s i.tokenId i.outcome i.price i.size i.now h
        (hside i (by simp)))
      (fun j hj => hside j (List.mem_cons_of_mem _ hj))

namespace Strategy

theorem mem_sellRule_of (positions : List (String × Position))
    (C : String × Position → Prop) [DecidablePred C] (t : String) (p : Position)
    (h : (t, p) ∈ positions) (hC : C (t, p)) :
    sellSignal t p ∈ sellRule positions C :=
  List.mem_filterMap.mpr ⟨(t, p), h, by rw [if_pos hC]⟩

end Strategy

/-- C1 counterexample inputs: a ledger holding a nonzero Down position at
token A and a stale pending Down buy order at token B. -/
def c1state : TraderState :=
  ⟨[("A", ⟨"A", Outcome.Down, 5, 40, 40⟩)], [], [],
    [("B", ⟨"ord1", Outcome.Down⟩)], [], [], []⟩

/-- A live-trading (non-paper) configuration. -/
def liveCfg : TraderConfig := ⟨false, 2, 5/100⟩

/-- A limit-sell venue oracle whose every call throws. -/
def lsNone : LSVenue := ⟨none, none, none, none, none, ⟨none, none⟩⟩

/-- A buy venue whose order-status query reports `filled`. -/
def venueFilledOrd : BuyVenue := ⟨fun _ => some "filled", some 0, none, [], [], lsNone⟩

/-- A buy venue whose order-status query reports `open`. -/
def venueOpenOrd : BuyVenue := ⟨fun _ => some "open", some 0, none, [], [], lsNone⟩

/-- C1 counterexample: with a nonzero opposite (Down) position held, a BUY of
Up is refused — but not with "no venue call, state unchanged" as claimed: when
a pending buy order of the opposite side exists, `buy` first queries that
order's status at the venue, and when the venue reports it filled the entry
is dropped from `pendingBuyOrders` before the refusal, so the state changes
and the outcome depends on the venue's answer. -/
theorem buy_opposite_refusal_counterexample :
    (Trader.buy liveCfg venueFilledOrd c1state "C" Outcome.Up 40 10 0).1 = false ∧
    (Trader.buy liveCfg venueFilledOrd c1state "C" Outcome.Up 40 10 0).2.pendingBuyOrders
      = [] ∧
    c1state.pendingBuyOrders = [("B", ⟨"ord1", Outcome.Down⟩)] ∧
    (Trader.buy liveCfg venueOpenOrd c1state "C" Outcome.Up 40 10 0).2 = c1state := by
  refine ⟨?_, ?_, rfl, ?_⟩ <;> rfl

/-- C1 (amended): the single-side invariant holds, with the refusal weakened
to "returns false with the positions map unchanged" (when an opposite-side
pending buy order exists, `buy` may first query its status at the venue and
drop the stale entry).  (1) Any sequence of BUY intents executed through
`Trader.buy` — each intent pairing a token with that token's fixed side —
preserves the ledger invariant, whose second component says the positions map
never simultaneously holds nonzero-size positions on opposite sides; (2)
`buy` refuses (returns false, positions unchanged) whenever any position of
the opposite outcome has nonzero size; (3) the Strategy's entry path
(`tryBuyWithAI`) emits no BUY when the opposite side is already held. -/
theorem single_side_invariant (side : String → Outcome) (cfg : TraderConfig) :
    (∀ (intents : List BuyIntent) (s : TraderState), LedgerInv side s →
      (∀ i ∈ intents, i.outcome = side i.tokenId) →
      LedgerInv side (execBuys cfg s intents)) ∧
    (∀ (venue : BuyVenue) (s : TraderState) (t : String) (o : Outcome)
        (price size now : ℚ),
      (∃ kv ∈ s.positions, 0 < kv.2.size ∧ kv.2.outcome ≠ o) →
      (Trader.buy cfg venue s t o price size now).1 = false ∧
      (Trader.buy cfg venue s t o price size now).2.positions = s.positions) ∧
    (∀ (scfg : StratConfig) (state : MarketState)
        (positions : List (String × Position)) (upT downT : String)
        (upP downP : ℚ) (analysis : AIAnalysis) (scope : Scope) (rec : Outcome),
      analysis.recommendedOutcome = some rec →
      0 < (((lookupk positions (if rec = Outcome.Up then downT else upT)).map
        Position.size).getD 0) →
      Strategy.tryBuyWithAI scfg state positions upT downT upP downP analysis scope
        = none) := by
  refine ⟨ledgerInv_execBuys side cfg,
    fun venue s t o price size now hopp =>
      buy_refuses_opposite cfg venue s t o price size now hopp, ?_⟩
  intro scfg state positions upT downT upP downP analysis scope rec hrec hopp
  unfold Strategy.tryBuyWithAI
  simp only [hrec]
  rw [if_pos hopp]

/-- C1 witness: a paper BUY of Up at token U, starting from the empty ledger,
preserves the invariant; the side map assigns Up to token U. -/
def c1side : String → Outcome := fun t => if t = "U" then Outcome.Up else Outcome.Down

/-- The venue oracle for the C1 witness intent (paper mode: never consulted). -/
def c1venue : BuyVenue := ⟨fun _ => none, none, none, [], [], lsNone⟩

/-- The single BUY intent of the C1 witness. -/
def c1intents : List BuyIntent := [⟨c1venue, "U", Outcome.Up, 40, 10, 0⟩]

/-- A paper-trading configuration. -/
def paperCfg : TraderConfig := ⟨true, 2, 5/100⟩

theorem single_side_invariant_witness :
    LedgerInv c1side ⟨[], [], [], [], [], [], []⟩ ∧
    (∀ i ∈ c1intents, i.outcome = c1side i.tokenId) ∧
    LedgerInv c1side (execBuys paperCfg ⟨[], [], [], [], [], [], []⟩ c1intents) :=
  have h0 : LedgerInv c1side ⟨[], [], [], [], [], [], []⟩ := by
    constructor
    · intro kv hkv
      simp at hkv
    · intro p hp
      simp at hp
  have hside : ∀ i ∈ c1intents, i.outcome = c1side i.tokenId := by
    intro i hi
    simp only [c1intents, List.mem_singleton] at hi
    subst hi
    simp [c1side]
  ⟨h0, hside,
    (single_side_invariant c1side paperCfg).1 c1intents ⟨[], [], [], [], [], [], []⟩
      h0 hside⟩

/-- C2 counterexample inputs: a held Up position at token T with a recorded
pending sell order. -/
def c2state : TraderState :=
  ⟨[("T", ⟨"T", Outcome.Up, 5, 40, 35⟩)], [], [("T", "ord")], [], [], [], []⟩

/-- C2 counterexample: when the venue balance query throws, `forceLiquidate`
returns false and leaves the local Position and pending-sell entries in
place, contradicting the claim that local state is cleared even when the
venue calls fail. -/
theorem forceLiquidate_error_counterexample :
    (Trader.forceLiquidate liveCfg ⟨none, none⟩ c2state "T" Outcome.Up 35 0).1
      = false ∧
    (Trader.forceLiquidate liveCfg ⟨none, none⟩ c2state "T" Outcome.Up 35 0).2
      = c2state ∧
    lookupk c2state.positions "T" = some ⟨"T", Outcome.Up, 5, 40, 35⟩ ∧
    lookupk c2state.pendingSellOrders "T" = some "ord" :=
  ⟨rfl, rfl, rfl, rfl⟩

/-- C2 (amended): (1) on a tick in the pre-end forced-exit window
(`0 < timeToEnd ≤ SELL_BEFORE_START_MS`) in which no orphaned-position signal
fires, the Strategy emits a SELL for the full size of every open Position
tied to the current interval; (2) `forceLiquidate` clears the token's local
Position and pending-sell entries and returns true whenever the venue calls
do not throw (including a zero sellable balance); (3) but when the venue
balance query throws, `forceLiquidate` returns false with the local state
unchanged (see the counterexample). -/
theorem forced_exit_window (scfg : StratConfig) (state : MarketState)
    (positions : List (String × Position)) (aN aC : Option AIAnalysis)
    (tcfg : TraderConfig) (venue : FLVenue) (s : TraderState) (tokenId : String)
    (outcome : Outcome) (currentPrice now : ℚ) :
    (state.currentMarket = true → 0 < state.timeToEnd →
      state.timeToEnd ≤ scfg.SELL_BEFORE_START_MS →
      Strategy.orphanSells state positions = [] →
      ∀ t p, (t, p) ∈ positions → 0 < p.size →
        (t = state.currentUpTokenId ∨ t = state.currentDownTokenId) →
        Strategy.sellSignal t p ∈ Strategy.generateSignals scfg state positions aN aC) ∧
    (∀ alw, tcfg.PAPER_TRADING = false → venue.allowance = some alw →
      (round1 (alw / 1000000) ≤ 0 ∨ venue.post.isSome = true) →
      (Trader.forceLiquidate tcfg venue s tokenId outcome currentPrice now).1
          = true ∧
        lookupk (Trader.forceLiquidate tcfg venue s tokenId outcome currentPrice
          now).2.positions tokenId = none ∧
        lookupk (Trader.forceLiquidate tcfg venue s tokenId outcome currentPrice
          now).2.pendingSellOrders tokenId = none) ∧
    (tcfg.PAPER_TRADING = false → venue.allowance = none →
      Trader.forceLiquidate tcfg venue s tokenId outcome currentPrice now
        = (false, s)) := by
  refine ⟨?_, ?_, ?_⟩
  · intro hcm hte htw horph t p htp hsz hcur
    have hmem_pre : Strategy.sellSignal t p ∈ Strategy.preStartSells state positions :=
      Strategy.mem_sellRule_of positions _ t p htp ⟨hsz, hcur⟩
    have hmem_end : Strategy.sellSignal t p ∈ Strategy.preEndSells positions :=
      Strategy.mem_sellRule_of positions _ t p htp hsz
    by_cases hps : (state.nextMarket = true ∧
        state.timeToStart ≤ scfg.SELL_BEFORE_START_MS) ∧
        Strategy.preStartSells state positions ≠ []
    · have hres : Strategy.generateSignals scfg state positions aN aC
          = Strategy.preStartSells state positions := by
        unfold Strategy.generateSignals
        simp [horph, hps.1.1, hps.1.2, hps.2]
      rw [hres]
      exact hmem_pre
    · have hpsempty : (if state.nextMarket = true ∧
          state.timeToStart ≤ scfg.SELL_BEFORE_START_MS then
            Strategy.preStartSells state positions else []) = [] := by
        split_ifs with hc
        · by_cases hne : Strategy.preStartSells state positions = []
          · exact hne
          · exact absurd ⟨hc, hne⟩ hps
        · rfl
      have hres : Strategy.generateSignals scfg state positions aN aC
          = Strategy.preEndSells positions := by
        unfold Strategy.generateSignals
        simp [horph, hpsempty, hcm, hte, htw]
      rw [hres]
      exact hmem_end
  · intro alw hpar halw hok
    unfold Trader.forceLiquidate
    have hp : ¬(tcfg.PAPER_TRADING = true) := by simp [hpar]
    rw [if_neg hp]
    simp only [halw]
    by_cases hss : round1 (alw / 1000000) ≤ 0
    · rw [if_pos hss]
      exact ⟨rfl, by simp [lookupk_erasek], by simp [lookupk_erasek]⟩
    · rw [if_neg hss]
      rcases hpost : venue.post with _ | oid
      · rcases hok with hok | hok
        · exact absurd hok hss
        · rw [hpost] at hok
          simp at hok
      · exact ⟨rfl, by simp [lookupk_erasek], by simp [lookupk_erasek]⟩
  · intro hpar halw
    unfold Trader.forceLiquidate
    have hp : ¬(tcfg.PAPER_TRADING = true) := by simp [hpar]
    rw [if_neg hp]
    simp only [halw]

/-- Market snapshot for the C2 witness: the current interval 10 s from its
end, inside the 15 s forced-exit window. -/
def c2wstate : MarketState :=
  MarketState.mk true false "" "" "CU" "CD" 40 45 35 60 120000 10000

/-- The open current-interval position of the C2 witness. -/
def c2wpositions : List (String × Position) :=
  [("CU", ⟨"CU", Outcome.Up, 5, 40, 35⟩)]

/-- C2 witness: in the pre-end window the position tied to the current
interval receives a SELL signal of its full size; `forceLiquidate` with a
non-throwing venue returns true and clears the token's entries, and with a
thrown balance query returns false leaving the state unchanged. -/
theorem forced_exit_window_witness :
    Strategy.orphanSells c2wstate c2wpositions = [] ∧
    Strategy.sellSignal "CU" ⟨"CU", Outcome.Up, 5, 40, 35⟩
      ∈ Strategy.generateSignals c4cfg c2wstate c2wpositions none none ∧
    ((Trader.forceLiquidate liveCfg ⟨some 50000000, some "x"⟩ c2state "T"
        Outcome.Up 35 0).1 = true ∧
      lookupk (Trader.forceLiquidate liveCfg ⟨some 50000000, some "x"⟩ c2state "T"
        Outcome.Up 35 0).2.positions "T" = none ∧
      lookupk (Trader.forceLiquidate liveCfg ⟨some 50000000, some "x"⟩ c2state "T"
        Outcome.Up 35 0).2.pendingSellOrders "T" = none) ∧
    Trader.forceLiquidate liveCfg ⟨none, none⟩ c2state "T" Outcome.Up 35 0
      = (false, c2state) := by
  have horph : Strategy.orphanSells c2wstate c2wpositions = [] := by
    norm_num [Strategy.orphanSells, Strategy.sellRule, Strategy.validTokenIds,
      c2wstate, c2wpositions]
    intro h
    exact absurd h (by decide)
  refine ⟨horph, ?_, ?_, ?_⟩
  · exact (forced_exit_window c4cfg c2wstate c2wpositions none none liveCfg
      ⟨none, none⟩ c2state "T" Outcome.Up 35 0).1 rfl (by norm_num [c2wstate])
      (by norm_num [c2wstate, c4cfg]) horph "CU" ⟨"CU", Outcome.Up, 5, 40, 35⟩
      (by simp [c2wpositions]) (by norm_num) (Or.inl rfl)
  · exact (forced_exit_window c4cfg c2wstate c2wpositions none none liveCfg
      ⟨some 50000000, some "x"⟩ c2state "T" Outcome.Up 35 0).2.1 50000000 rfl rfl
      (Or.inr rfl)
  · exact (forced_exit_window c4cfg c2wstate c2wpositions none none liveCfg
      ⟨none, none⟩ c2state "T" Outcome.Up 35 0).2.2 rfl rfl

/-- C7: reconciliation (`syncPositionsFromApi`, via its per-token half
`syncToken`) seeds a Position from a venue-reported balance when no local
Position exists — size from the balance, cost basis from the cached average
price, else the last BUY trade price, else the quote — and for a Position
that already exists locally a pass never changes `avgBuyPrice`: only size and
mark price are refreshed, so a second pass with the same balance leaves the
cost basis unchanged. -/
theorem syncToken_reconciliation (tokenId : String) (outcome : Outcome)
    (price rawBal : ℚ) :
    (∀ s : TraderState, lookupk s.positions tokenId = none →
      (1 : ℚ)/1000 ≤ rawBal / 1000000 →
      lookupk (Trader.syncToken s tokenId outcome price rawBal).positions tokenId =
        some { tokenId := tokenId, outcome := outcome, size := rawBal / 1000000,
               avgBuyPrice := Trader.seedPriceOf s tokenId price,
               currentPrice := price }) ∧
    (∀ (s : TraderState) (pos : Position),
      lookupk s.positions tokenId = some pos →
      (∀ pos2, lookupk (Trader.syncToken s tokenId outcome price rawBal).positions
          tokenId = some pos2 → pos2.avgBuyPrice = pos.avgBuyPrice) ∧
      ((1 : ℚ)/1000 ≤ rawBal / 1000000 →
        lookupk (Trader.syncToken s tokenId outcome price rawBal).positions tokenId
          = some { pos with size := rawBal / 1000000, currentPrice := price })) := by
  constructor
  · intro s hnone hbal
    unfold Trader.syncToken
    rw [if_pos hbal]
    simp only [hnone]
    simp [lookupk_setk]
  · intro s pos hpos
    by_cases hbal : (1 : ℚ)/1000 ≤ rawBal / 1000000
    · have hres : lookupk (Trader.syncToken s tokenId outcome price rawBal).positions
          tokenId = some { pos with size := rawBal / 1000000, currentPrice := price } := by
        unfold Trader.syncToken
        rw [if_pos hbal]
        simp only [hpos]
        simp [lookupk_setk]
      refine ⟨?_, fun _ => hres⟩
      intro pos2 hpos2
      rw [hres] at hpos2
      cases hpos2
      rfl
    · have hcase : Trader.syncToken s tokenId outcome price rawBal = s ∨
          lookupk (Trader.syncToken s tokenId outcome price rawBal).positions tokenId
            = none := by
        unfold Trader.syncToken
        rw [if_neg hbal]
        simp only [hpos]
        split_ifs with hz
        · exact Or.inr (by simp [lookupk_erasek])
        · exact Or.inl rfl
      refine ⟨?_, fun hb => absurd hb hbal⟩
      intro pos2 hpos2
      rcases hcase with hcase | hcase
      · rw [hcase, hpos] at hpos2
        cases hpos2
        rfl
      · rw [hcase] at hpos2
        cases hpos2

/-- The trade history of the C7 witness: one BUY at 38¢ on token U. -/
def c7hist : List TradeRecord :=
  [⟨0, "U", "U", Outcome.Up, TradeSide.BUY, 38, 10, none, none⟩]

/-- The initial ledger of the C7 witness: no positions, no cached averages,
one past BUY trade. -/
def c7s0 : TraderState := ⟨[], c7hist, [], [], [], [], []⟩

/-- C7 witness: a venue balance of 12.5 for a token with no local Position
and a last BUY trade at 38¢ seeds a Position of size 12.5 and cost 38¢; a
second pass with the same balance leaves the cost at 38¢. -/
theorem syncToken_reconciliation_witness :
    lookupk c7s0.positions "U" = none ∧
    (1 : ℚ)/1000 ≤ 12500000 / 1000000 ∧
    lookupk (Trader.syncToken c7s0 "U" Outcome.Up 40 12500000).positions "U"
      = some ⟨"U", Outcome.Up, 25/2, 38, 40⟩ ∧
    (∀ pos2,
      lookupk (Trader.syncToken (Trader.syncToken c7s0 "U" Outcome.Up 40 12500000)
        "U" Outcome.Up 40 12500000).positions "U" = some pos2 →
      pos2.avgBuyPrice = 38) := by
  have h1 := (syncToken_reconciliation "U" Outcome.Up 40 12500000).1 c7s0 rfl
    (by norm_num)
  have h1r : lookupk (Trader.syncToken c7s0 "U" Outcome.Up 40 12500000).positions "U"
      = some ⟨"U", Outcome.Up, 25/2, 38, 40⟩ := by
    rw [h1]
    norm_num [Trader.seedPriceOf, c7s0, c7hist, lookupk]
  have h2 := ((syncToken_reconciliation "U" Outcome.Up 40 12500000).2
    (Trader.syncToken c7s0 "U" Outcome.Up 40 12500000)
    ⟨"U", Outcome.Up, 25/2, 38, 40⟩ h1r).1
  exact ⟨rfl, by norm_num, h1r, fun pos2 hpos2 => h2 pos2 hpos2⟩

theorem buyPendingLoop_same (o : Outcome) (gos : String → Option String) :
    ∀ (l : List (String × PendingBuy)) (s : TraderState),
      (∀ kv ∈ l, kv.2.outcome = o) → Trader.buyPendingLoop o gos l s = (none, s) := by
  intro l
  induction l with
  | nil => exact fun s _ => rfl
  | cons hd tl ih =>
    intro s h
    rcases hd with ⟨pt, pd⟩
    have hpd : pd.outcome = o := h (pt, pd) (by simp)
    simp only [Trader.buyPendingLoop]
    rw [if_neg (by simp [hpd])]
    exact ih s (fun kv hkv => h kv (List.mem_cons_of_mem _ hkv))

/-- C10: when `buy` submits a buy order but the bounded confirmation polling
(at most 10 attempts) never observes a filled balance, it deletes the token's
local Position, pending-sell and pending-buy entries and still returns
`true` — the same boolean result as a confirmed fill (final conjunct), so a
caller cannot distinguish a non-fill from a fill by the return value alone. -/
theorem buy_nonfill_returns_true (cfg : TraderConfig) (venue venueF : BuyVenue)
    (s : TraderState) (t : String) (o : Outcome) (price size now : ℚ)
    (hnp : ∀ kv ∈ s.pendingBuyOrders, kv.2.outcome = o)
    (hnoopp : s.positions.any
      (fun kv => decide (0 < kv.2.size ∧ kv.2.outcome ≠ o)) = false)
    (hlive : cfg.PAPER_TRADING = false)
    (hopen : venue.openBuys = some 0)
    (hpost : venue.postOrder.isSome = true)
    (hnofill : Trader.buyBalanceLoop size (venue.balancePolls.take 10) ≤ 0)
    (hnpF : venueF.openBuys = some 0)
    (hpostF : venueF.postOrder.isSome = true)
    (hfill : 0 < Trader.buyBalanceLoop size (venueF.balancePolls.take 10)) :
    (Trader.buy cfg venue s t o price size now).1 = true ∧
    lookupk (Trader.buy cfg venue s t o price size now).2.positions t = none ∧
    lookupk (Trader.buy cfg venue s t o price size now).2.pendingSellOrders t
      = none ∧
    lookupk (Trader.buy cfg venue s t o price size now).2.pendingBuyOrders t
      = none ∧
    (Trader.buy cfg venueF s t o price size now).1 = true := by
  have hp : ¬(cfg.PAPER_TRADING = true) := by simp [hlive]
  have hanyne : ¬(s.positions.any
      (fun kv => decide (0 < kv.2.size ∧ kv.2.outcome ≠ o)) = true) :=
    fun hcontra => absurd (hnoopp.symm.trans hcontra) Bool.false_ne_true
  have hmain : (Trader.buy cfg venue s t o price size now).1 = true ∧
      lookupk (Trader.buy cfg venue s t o price size now).2.positions t = none ∧
      lookupk (Trader.buy cfg venue s t o price size now).2.pendingSellOrders t
        = none ∧
      lookupk (Trader.buy cfg venue s t o price size now).2.pendingBuyOrders t
        = none := by
    unfold Trader.buy
    rw [buyPendingLoop_same o venue.getOrderStatus s.pendingBuyOrders s hnp]
    dsimp only
    rw [if_neg hanyne, if_neg hp, hopen]
    dsimp only
    rw [if_neg (by norm_num)]
    obtain ⟨oid, hoid⟩ := Option.isSome_iff_exists.mp hpost
    rw [hoid]
    dsimp only
    rw [if_pos hnofill]
    exact ⟨rfl, by simp [lookupk_erasek], by simp [lookupk_erasek],
      by simp [lookupk_erasek]⟩
  have hfillside : (Trader.buy cfg venueF s t o price size now).1 = true := by
    unfold Trader.buy
    rw [buyPendingLoop_same o venueF.getOrderStatus s.pendingBuyOrders s hnp]
    dsimp only
    rw [if_neg hanyne, if_neg hp, hnpF]
    dsimp only
    rw [if_neg (by norm_num)]
    obtain ⟨oid, hoid⟩ := Option.isSome_iff_exists.mp hpostF
    rw [hoid]
    dsimp only
    rw [if_neg (by linarith)]
    by_cases h5 : Trader.buyBalanceLoop size (venueF.balancePolls.take 10) < 5
    · rw [if_pos h5]
    · rw [if_neg h5]
  exact ⟨hmain.1, hmain.2.1, hmain.2.2.1, hmain.2.2.2, hfillside⟩

/-- The non-filling venue of the C10 witness: order posts, polling never
confirms. -/
def c10venueNF : BuyVenue := ⟨fun _ => none, some 0, some "o1", [], [], lsNone⟩

/-- The filling venue of the C10 witness: the first poll reports a full
balance and allowance of 10 shares. -/
def c10venueF : BuyVenue :=
  ⟨fun _ => none, some 0, some "o2", [], [⟨some (10000000, 10000000), none⟩], lsNone⟩

/-- C10 witness: from the empty ledger, a 10-share buy that never confirms
returns true with all token entries deleted; the same buy against a filling
venue also returns true. -/
theorem buy_nonfill_returns_true_witness :
    (∀ kv ∈ (TraderState.mk [] [] [] [] [] [] []).pendingBuyOrders,
      kv.2.outcome = Outcome.Up) ∧
    ((Trader.buy liveCfg c10venueNF ⟨[], [], [], [], [], [], []⟩ "U" Outcome.Up
        40 10 0).1 = true ∧
      lookupk (Trader.buy liveCfg c10venueNF ⟨[], [], [], [], [], [], []⟩ "U"
        Outcome.Up 40 10 0).2.positions "U" = none ∧
      lookupk (Trader.buy liveCfg c10venueNF ⟨[], [], [], [], [], [], []⟩ "U"
        Outcome.Up 40 10 0).2.pendingSellOrders "U" = none ∧
      lookupk (Trader.buy liveCfg c10venueNF ⟨[], [], [], [], [], [], []⟩ "U"
        Outcome.Up 40 10 0).2.pendingBuyOrders "U" = none ∧
      (Trader.buy liveCfg c10venueF ⟨[], [], [], [], [], [], []⟩ "U" Outcome.Up
        40 10 0).1 = true) :=
  ⟨by intro kv hkv; simp at hkv,
    buy_nonfill_returns_true liveCfg c10venueNF c10venueF ⟨[], [], [], [], [], [], []⟩
      "U" Outcome.Up 40 10 0
      (by intro kv hkv; simp at hkv)
      (by simp)
      rfl rfl rfl
      (by norm_num [Trader.buyBalanceLoop])
      rfl rfl
      (by norm_num [Trader.buyBalanceLoop, round1, jsRound, c10venueF])⟩
